import Mathlib

/-!
Shallow embedding of the trade-inference and correlation engine of
`src/lib/transactions.ts` (class `TransactionSubscription`) and of the per-curve
subscription registry in the server entry point (the `wssTransactions`
connection handler).

Modelling conventions:

* JS `number` arithmetic on reserve values and SOL amounts is modelled exactly
  over `Int` and `Rat`.  The properties under study involve only sign tests,
  equalities, and the literal expression `x / 1e9`; all are preserved by the
  exact model.
* A JS `Map` is an association list; `mapSet` overwrites a binding in place,
  `mapGet` returns the first binding, `mapDelete` removes the binding.
* JS object identity of the `{ event, timestamp }` records stored in
  `pendingTrades` is modelled by an allocation counter `nextId` stamped on each
  record; `emittedIds` records which pending records were ever passed to
  `notifyCallbacks`, so "this pending trade was emitted" is well defined even
  when two records have equal field values.
* `setTimeout(cb, 2000)` closures capture only `context.slot`; they are
  modelled by the `timers` list plus a `fire` step that runs the callback body.
* External fallible collaborators (the Borsh account decoder, `parseLogs`,
  the RPC connection) are parameters returning `Option` / `Except` / `Bool`,
  mirroring the `try`/`catch` recovery in the source; every handler is a total
  function, so "raises no exception to the caller" is captured by totality.
-/

namespace PumpApi

/-- JS `Map.prototype.get`: first binding for the key, if any. -/
def mapGet {κ α : Type} [DecidableEq κ] (m : List (κ × α)) (k : κ) : Option α :=
  (m.find? (fun p => decide (p.1 = k))).map (fun p => p.2)

/-- JS `Map.prototype.set`: overwrite the binding in place, else append. -/
def mapSet {κ α : Type} [DecidableEq κ] (m : List (κ × α)) (k : κ) (v : α) :
    List (κ × α) :=
  if m.any (fun p => decide (p.1 = k)) then
    m.map (fun p => if p.1 = k then (k, v) else p)
  else m ++ [(k, v)]

/-- JS `Map.prototype.delete`. -/
def mapDelete {κ α : Type} [DecidableEq κ] (m : List (κ × α)) (k : κ) :
    List (κ × α) :=
  m.filter (fun p => decide (p.1 ≠ k))

/-- Direction of a `TradeEvent` (`'buy' | 'sell'`). -/
inductive TradeType where
  | buy
  | sell
deriving DecidableEq

/-- Program variant detected from the account owner (`'pump' | 'pump_amm'`). -/
inductive ProgType where
  | pump
  | pumpAmm
deriving DecidableEq

/-- The two reserve fields retained in `this.prevReserves`. -/
structure Reserves where
  virtual_sol_reserves : Int
  virtual_token_reserves : Int
deriving DecidableEq

/-- Decoded `BondingCurve` account (interface `BondingCurveDecoded`), with
`creator` already rendered to its base-58 string. -/
structure BondingCurveDecoded where
  virtual_token_reserves : Int
  virtual_sol_reserves : Int
  real_token_reserves : Int
  real_sol_reserves : Int
  token_total_supply : Int
  complete : Bool
  creator : String
  is_mayhem_mode : Bool
deriving DecidableEq

/-- The externally visible `TradeEvent` record. -/
structure TradeEvent where
  type : TradeType
  amount : Rat
  bonding_curve : String
  slot : Int
  token_amount_delta : Option String
  user : Option String
  signature : Option String
deriving DecidableEq

/-- Fields of a decoded pump `TradeEvent` log payload that `handleLogs` reads
(interface `PumpTradeEventData`), pubkeys already rendered to strings. -/
structure PumpTradeEventData where
  sol_amount : Int
  token_amount : Int
  is_buy : Bool
  user : String
  creator : String
deriving DecidableEq

/-- Fields of a decoded pump-AMM `BuyEvent` payload that `handleLogs` reads. -/
structure PumpAmmBuyEventData where
  pool : String
  user : String
  quote_amount_in : Int
  base_amount_out : Int
deriving DecidableEq

/-- Fields of a decoded pump-AMM `SellEvent` payload that `handleLogs` reads. -/
structure PumpAmmSellEventData where
  pool : String
  user : String
  base_amount_in : Int
  quote_amount_out : Int
deriving DecidableEq

/-- One event produced by `eventParser.parseLogs`; the constructor carries the
`ev.name` dispatch (`'TradeEvent'`, `'BuyEvent'`, `'SellEvent'`, anything else). -/
inductive ParsedEvent where
  | tradeEvent (d : PumpTradeEventData)
  | buyEvent (d : PumpAmmBuyEventData)
  | sellEvent (d : PumpAmmSellEventData)
  | otherEvent (name : String)
deriving DecidableEq

/-- One record of `this.pendingTrades`; `id` models the JS object identity of
the freshly allocated `{ event, timestamp }` record. -/
structure PendingEntry where
  event : TradeEvent
  timestamp : Int
  id : Nat
deriving DecidableEq

/-- The mutable state of one `TransactionSubscription` object, together with
the observable history of its emissions.  Display-only status fields
(`lastEventTime`, the error object, `listenerId`) are omitted; `statusError`
records whether `status.error` was ever set. -/
structure TsState where
  bondingCurve : String
  accountListenerId : Option Nat
  logsListenerId : Option Nat
  subscribed : Bool
  statusError : Bool
  eventCount : Nat
  programType : Option ProgType
  hasEventParser : Bool
  prevReserves : Option Reserves
  pendingTrades : List (Int × PendingEntry)
  timers : List (Int × Int)
  emitted : List TradeEvent
  emittedIds : List Nat
  nextId : Nat
deriving DecidableEq

/-- State of a freshly constructed `TransactionSubscription`. -/
def initTs (bondingCurve : String) : TsState :=
  { bondingCurve := bondingCurve
    accountListenerId := none
    logsListenerId := none
    subscribed := false
    statusError := false
    eventCount := 0
    programType := none
    hasEventParser := false
    prevReserves := none
    pendingTrades := []
    timers := []
    emitted := []
    emittedIds := []
    nextId := 0 }

/-- `decodeAccountData`: reject buffers shorter than the 8-byte discriminator,
then defer to the external Borsh decoder, whose rejection (wrong tag, wrong
layout, thrown exception, missing field) is the `none` result. -/
def decodeAccountData (decoder : List Nat → Option BondingCurveDecoded)
    (accountData : List Nat) : Option BondingCurveDecoded :=
  if accountData.length < 8 then none else decoder accountData

/-- The staleness sweep at the end of `handleAccountChange`: drop pending
entries older than 10000 ms. -/
def sweepPending (now : Int) (m : List (Int × PendingEntry)) :
    List (Int × PendingEntry) :=
  m.filter (fun p => decide (¬ 10000 < now - p.2.timestamp))

/-- Body of `handleAccountChange` after `dataToBuffer`/`decodeAccountData`
(whose failures are the `none` argument and return with no state change):
infer a provisional trade from the reserve delta, store the new snapshot as
`prevReserves`, then run the staleness sweep.  A created provisional trade is
recorded in `pendingTrades` keyed by slot and a 2000 ms timeout is scheduled;
nothing is emitted by this handler itself. -/
def handleAccountChange (st : TsState) (decoded : Option BondingCurveDecoded)
    (slot now : Int) : TsState :=
  match decoded with
  | none => st
  | some d =>
    let st1 :=
      match st.prevReserves with
      | none => st
      | some prev =>
        let solDelta := d.virtual_sol_reserves - prev.virtual_sol_reserves
        let tokenDelta := prev.virtual_token_reserves - d.virtual_token_reserves
        if 0 < solDelta ∧ 0 < tokenDelta then
          let event : TradeEvent :=
            { type := TradeType.buy
              amount := (solDelta : Rat) / 1000000000
              bonding_curve := st.bondingCurve
              slot := slot
              token_amount_delta := some (toString tokenDelta)
              user := some d.creator
              signature := none }
          { st with
              pendingTrades := mapSet st.pendingTrades slot ⟨event, now, st.nextId⟩
              timers := st.timers ++ [(slot, now + 2000)]
              nextId := st.nextId + 1 }
        else if solDelta < 0 ∧ tokenDelta < 0 then
          let event : TradeEvent :=
            { type := TradeType.sell
              amount := (solDelta.natAbs : Rat) / 1000000000
              bonding_curve := st.bondingCurve
              slot := slot
              token_amount_delta := some (toString tokenDelta.natAbs)
              user := none
              signature := none }
          { st with
              pendingTrades := mapSet st.pendingTrades slot ⟨event, now, st.nextId⟩
              timers := st.timers ++ [(slot, now + 2000)]
              nextId := st.nextId + 1 }
        else st
    let st2 := { st1 with
      prevReserves := some ⟨d.virtual_sol_reserves, d.virtual_token_reserves⟩ }
    { st2 with pendingTrades := sweepPending now st2.pendingTrades }

/-- Body of the `setTimeout` callback scheduled by `handleAccountChange`: if a
pending trade is still recorded for the captured slot, remove it and emit it. -/
def fireTimeout (st : TsState) (slot : Int) : TsState :=
  match mapGet st.pendingTrades slot with
  | none => st
  | some pending =>
    { st with
        pendingTrades := mapDelete st.pendingTrades slot
        eventCount := st.eventCount + 1
        emitted := st.emitted ++ [pending.event]
        emittedIds := st.emittedIds ++ [pending.id] }

/-- The slot offsets scanned by the correlation loop
(`for (let slotOffset = -5; slotOffset <= 5; slotOffset++)`). -/
def windowOffsets : List Int := [-5, -4, -3, -2, -1, 0, 1, 2, 3, 4, 5]

/-- The correlation scan: first pending trade found at `slot + slotOffset`
for `slotOffset` in `-5..5`. -/
def findPending (m : List (Int × PendingEntry)) (slot : Int) :
    Option (Int × PendingEntry) :=
  windowOffsets.findSome? (fun slotOffset =>
    (mapGet m (slot + slotOffset)).map (fun pending => (slot + slotOffset, pending)))

/-- Body of the per-event loop of `handleLogs` for one parsed event. -/
def processParsedEvent (st : TsState) (isAmm : Bool) (slot : Int)
    (signature : Option String) : ParsedEvent → TsState
  | ParsedEvent.buyEvent d =>
    if isAmm then
      if d.pool = st.bondingCurve then
        let event : TradeEvent :=
          { type := TradeType.buy
            amount := (d.quote_amount_in : Rat) / 1000000000
            bonding_curve := st.bondingCurve
            slot := slot
            token_amount_delta := some (toString d.base_amount_out)
            user := some d.user
            signature := signature }
        { st with eventCount := st.eventCount + 1, emitted := st.emitted ++ [event] }
      else st
    else st
  | ParsedEvent.sellEvent d =>
    if isAmm then
      if d.pool = st.bondingCurve then
        let event : TradeEvent :=
          { type := TradeType.sell
            amount := (d.quote_amount_out : Rat) / 1000000000
            bonding_curve := st.bondingCurve
            slot := slot
            token_amount_delta := some (toString d.base_amount_in)
            user := some d.user
            signature := signature }
        { st with eventCount := st.eventCount + 1, emitted := st.emitted ++ [event] }
      else st
    else st
  | ParsedEvent.tradeEvent d =>
    if isAmm then st
    else
      let amountSol : Rat := (d.sol_amount : Rat) / 1000000000
      match findPending st.pendingTrades slot with
      | some (checkSlot, pending) =>
        let enrichedEvent : TradeEvent :=
          { pending.event with
              user := some d.creator
              signature := signature
              amount := amountSol }
        { st with
            pendingTrades := mapDelete st.pendingTrades checkSlot
            eventCount := st.eventCount + 1
            emitted := st.emitted ++ [enrichedEvent]
            emittedIds := st.emittedIds ++ [pending.id] }
      | none =>
        let event : TradeEvent :=
          { type := if d.is_buy then TradeType.buy else TradeType.sell
            amount := amountSol
            bonding_curve := st.bondingCurve
            slot := slot
            token_amount_delta := some (toString d.token_amount)
            user := some d.creator
            signature := signature }
        { st with eventCount := st.eventCount + 1, emitted := st.emitted ++ [event] }
  | ParsedEvent.otherEvent _ => st

/-- `handleLogs`: no-op without an event parser; a thrown/failed
`parseLogs` (the `none` argument) is swallowed by the `try`/`catch`; otherwise
fold the per-event loop over the parsed events. -/
def handleLogs (st : TsState) (parsed : Option (List ParsedEvent)) (slot : Int)
    (signature : Option String) : TsState :=
  if st.hasEventParser then
    match parsed with
    | none => st
    | some parsedEvents =>
      parsedEvents.foldl
        (fun s ev =>
          processParsedEvent s (decide (st.programType = some ProgType.pumpAmm))
            slot signature ev) st
  else st

/-- One event delivered to a `TransactionSubscription` by the event loop:
an account-change notification (already passed through `dataToBuffer` and
`decodeAccountData`, failures being `none`), a logs notification (already
passed through `parseLogs`, a thrown parse being `none`), or the firing of a
scheduled 2-second timeout for a slot. -/
inductive TsStep where
  | account (decoded : Option BondingCurveDecoded) (slot : Int) (now : Int)
  | logs (parsed : Option (List ParsedEvent)) (slot : Int) (signature : Option String)
  | fire (slot : Int)

/-- Event-loop semantics of one `TsStep`.  A `fire` step consumes one
scheduled timer for the slot and runs the timeout callback; firing a slot with
no scheduled timer is a no-op. -/
def tsStep (st : TsState) : TsStep → TsState
  | TsStep.account decoded slot now => handleAccountChange st decoded slot now
  | TsStep.logs parsed slot signature => handleLogs st parsed slot signature
  | TsStep.fire slot =>
    if st.timers.any (fun t => decide (t.1 = slot)) then
      fireTimeout { st with timers := st.timers.eraseP (fun t => decide (t.1 = slot)) } slot
    else st

/-- Run a sequence of event-loop steps. -/
def runTs (st : TsState) : List TsStep → TsState
  | [] => st
  | s :: rest => runTs (tsStep st s) rest

/-- One upstream RPC call observable at the connection
(`onAccountChange` / `onLogs` / `removeAccountChangeListener` /
`removeOnLogsListener`). -/
inductive UpAction where
  | openAccount (h : Nat) (key : String)
  | openLogs (h : Nat) (key : String)
  | closeAccount (h : Nat)
  | closeLogs (h : Nat)
deriving DecidableEq

/-- The upstream `Connection`: listener registrations currently open (tagged
with the subscribed address) and the full log of subscription calls made. -/
structure Conn where
  nextHandle : Nat
  accountSubs : List (Nat × String)
  logsSubs : List (Nat × String)
  actions : List UpAction
deriving DecidableEq

/-- `TransactionSubscription.subscribe`, with the four fallible awaits as
parameters: `ensureOwner` is `ensurePumpBondingCurve` (`none` = account
missing / unsupported owner / RPC failure, i.e. a throw), `initialFetch` is
the initial `getAccountInfo` + `decodeAccountData` (`Except.error` = the fetch
threw; `Except.ok none` = account missing or undecodable, tolerated;
`Except.ok (some d)` = baseline decoded), and `accountOpenOk` / `logsOpenOk`
tell whether each of the two listener registrations succeeds.  The `catch`
block sets `status.error` and rethrows; note that it does not remove a
listener that was already registered. -/
def subscribe (key : String) (ensureOwner : Option ProgType)
    (initialFetch : Except Unit (Option BondingCurveDecoded))
    (accountOpenOk logsOpenOk : Bool) (st : TsState) (c : Conn) :
    TsState × Conn × Bool :=
  if st.subscribed then (st, c, false)
  else
    match ensureOwner with
    | none => ({ st with statusError := true }, c, false)
    | some programType =>
      let st1 := { st with programType := some programType, hasEventParser := true }
      match initialFetch with
      | Except.error _ => ({ st1 with statusError := true }, c, false)
      | Except.ok initialDecoded =>
        let st2 :=
          match initialDecoded with
          | some d =>
            let baseline : Reserves := ⟨d.virtual_sol_reserves, d.virtual_token_reserves⟩
            { st1 with prevReserves := some baseline }
          | none => st1
        if accountOpenOk then
          let h1 := c.nextHandle
          let c1 : Conn :=
            { c with
                nextHandle := h1 + 1
                accountSubs := c.accountSubs ++ [(h1, key)]
                actions := c.actions ++ [UpAction.openAccount h1 key] }
          let st3 := { st2 with accountListenerId := some h1 }
          if logsOpenOk then
            let h2 := c1.nextHandle
            let c2 : Conn :=
              { c1 with
                  nextHandle := h2 + 1
                  logsSubs := c1.logsSubs ++ [(h2, key)]
                  actions := c1.actions ++ [UpAction.openLogs h2 key] }
            ({ st3 with logsListenerId := some h2, subscribed := true }, c2, true)
          else ({ st3 with statusError := true }, c1, false)
        else ({ st2 with statusError := true }, c, false)

/-- `TransactionSubscription.unsubscribe`: remove each registered listener
(guarded by a null check, so a second call makes no upstream calls), then
clear the snapshot, parser, and pending-trade table, and mark unsubscribed.
Scheduled `setTimeout` closures are not cancelled. -/
def unsubscribe (st : TsState) (c : Conn) : TsState × Conn :=
  let s1 :=
    match st.accountListenerId with
    | some h =>
      ({ st with accountListenerId := none },
       { c with
           accountSubs := c.accountSubs.filter (fun p => decide (p.1 ≠ h))
           actions := c.actions ++ [UpAction.closeAccount h] })
    | none => (st, c)
  let s2 :=
    match s1.1.logsListenerId with
    | some h =>
      ({ s1.1 with logsListenerId := none },
       { s1.2 with
           logsSubs := (s1.2).logsSubs.filter (fun p => decide (p.1 ≠ h))
           actions := (s1.2).actions ++ [UpAction.closeLogs h] })
    | none => s1
  ({ s2.1 with
      prevReserves := none
      hasEventParser := false
      pendingTrades := []
      subscribed := false }, s2.2)

/-- One value of the server's `transactionSubscriptions` map:
`{ subscription, clients }`. -/
structure SubscriptionEntry where
  subscription : TsState
  clients : List Nat
deriving DecidableEq

/-- The registry owned by the server.  `entries` is a heap of entry objects
keyed by an allocation id (modelling JS object identity, since the `close`
and `error` handlers capture the entry object, not the key);
`transactionSubscriptions` is the global map from bonding-curve key to the
current entry object. -/
structure RegState where
  entries : List (Nat × SubscriptionEntry)
  transactionSubscriptions : List (String × Nat)
  conn : Conn
  nextEid : Nat
deriving DecidableEq

/-- `Set.prototype.add`. -/
def addClient (clients : List Nat) (ws : Nat) : List Nat :=
  if clients.contains ws then clients else clients ++ [ws]

/-- The `wssTransactions` connection handler (acquire): join the existing
entry for the key, or create a fresh `TransactionSubscription`, `await
subscribe()`, and only on success register the entry and add the client.  On
failure nothing is registered (the error propagates to the outer catch), but
side effects `subscribe` already performed on the connection persist. -/
def acquire (r : RegState) (key : String) (ws : Nat) (ensureOwner : Option ProgType)
    (initialFetch : Except Unit (Option BondingCurveDecoded))
    (accountOpenOk logsOpenOk : Bool) : RegState × Bool :=
  match mapGet r.transactionSubscriptions key with
  | some eid =>
    match mapGet r.entries eid with
    | some e =>
      ({ r with entries := mapSet r.entries eid { e with clients := addClient e.clients ws } },
       true)
    | none => (r, true)
  | none =>
    let s := subscribe key ensureOwner initialFetch accountOpenOk logsOpenOk
      (initTs key) r.conn
    if s.2.2 then
      ({ r with
          entries := r.entries ++ [(r.nextEid, ⟨s.1, [ws]⟩)]
          transactionSubscriptions := mapSet r.transactionSubscriptions key r.nextEid
          conn := s.2.1
          nextEid := r.nextEid + 1 }, true)
    else ({ r with conn := s.2.1 }, false)

/-- The `ws.on('close')` / `ws.on('error')` cleanup (release), acting on the
entry object `eid` captured by the closure: delete the client from the
captured entry's set; if that set is now empty, call `unsubscribe()` on the
captured subscription and delete the key from the global map
(unconditionally, whatever the map currently holds for the key). -/
def release (r : RegState) (key : String) (eid : Nat) (ws : Nat) : RegState :=
  match mapGet r.entries eid with
  | none => r
  | some e =>
    let e1 := { e with clients := e.clients.filter (fun w => decide (w ≠ ws)) }
    if e1.clients.isEmpty then
      let u := unsubscribe e1.subscription r.conn
      { r with
          entries := mapSet r.entries eid { e1 with subscription := u.1 }
          conn := u.2
          transactionSubscriptions := mapDelete r.transactionSubscriptions key }
    else
      { r with entries := mapSet r.entries eid e1 }

/-- One registry operation: a client connecting for a key (with the outcome
parameters of the inner `subscribe`), or one firing of a client's
close/error cleanup, carrying the entry object id that the handler captured. -/
inductive RegStep where
  | connect (key : String) (ws : Nat) (ensureOwner : Option ProgType)
      (initialFetch : Except Unit (Option BondingCurveDecoded))
      (accountOpenOk logsOpenOk : Bool)
  | close (key : String) (eid : Nat) (ws : Nat)

/-- Semantics of one registry operation. -/
def regStep (r : RegState) : RegStep → RegState
  | RegStep.connect key ws ensureOwner initialFetch accountOpenOk logsOpenOk =>
    (acquire r key ws ensureOwner initialFetch accountOpenOk logsOpenOk).1
  | RegStep.close key eid ws => release r key eid ws

/-- Run a sequence of registry operations. -/
def runReg (r : RegState) : List RegStep → RegState
  | [] => r
  | s :: rest => runReg (regStep r s) rest

/-- The registry at server start. -/
def initReg : RegState :=
  { entries := [], transactionSubscriptions := [], conn := ⟨0, [], [], []⟩, nextEid := 0 }

/-- Number of open upstream account-change subscriptions for a key. -/
def accountCount (c : Conn) (key : String) : Nat :=
  (c.accountSubs.filter (fun p => decide (p.2 = key))).length

/-- Number of open upstream logs subscriptions for a key. -/
def logsCount (c : Conn) (key : String) : Nat :=
  (c.logsSubs.filter (fun p => decide (p.2 = key))).length

/-- Number of listeners currently registered for a key (clients of the entry
the global map holds for it). -/
def listenerCount (r : RegState) (key : String) : Nat :=
  match mapGet r.transactionSubscriptions key with
  | some eid =>
    match mapGet r.entries eid with
    | some e => e.clients.length
    | none => 0
  | none => 0

/-- A registry operation is well formed when a failed `subscribe` never
leaves a half-open pair behind (`accountOpenOk → logsOpenOk`) and when a
cleanup fires for the entry currently bound to its key with the client still
present — i.e. no stale duplicate releases. -/
def wfStep (r : RegState) : RegStep → Bool
  | RegStep.connect _ _ _ _ accountOpenOk logsOpenOk => !(accountOpenOk && !logsOpenOk)
  | RegStep.close key eid ws =>
    match mapGet r.transactionSubscriptions key with
    | some eid0 =>
      decide (eid0 = eid) &&
        (match mapGet r.entries eid with
         | some e => e.clients.contains ws
         | none => false)
    | none => false

/-- A well-formed trace: every operation well formed in the state it runs in. -/
def wfTrace (r : RegState) : List RegStep → Bool
  | [] => true
  | s :: rest => wfStep r s && wfTrace (regStep r s) rest

/-- Invariant of the pending-trade table: every recorded provisional trade
carries no signature, and sell provisionals carry no user (buy provisionals
carry the curve creator there). -/
def PendInv (st : TsState) : Prop :=
  ∀ p ∈ st.pendingTrades, p.2.event.signature = none ∧
    (p.2.event.type = TradeType.sell → p.2.event.user = none)

/-- Allocation-id hygiene of a subscription state: pending-record ids are
distinct and below the allocation counter, emitted ids are below the counter,
and no id is both pending and already emitted. -/
def TsInv (st : TsState) : Prop :=
  (st.pendingTrades.map (fun p => p.2.id)).Nodup ∧
  (∀ p ∈ st.pendingTrades, p.2.id < st.nextId) ∧
  (∀ i ∈ st.emittedIds, i < st.nextId) ∧
  (∀ p ∈ st.pendingTrades, p.2.id ∉ st.emittedIds)

/-- Inductive invariant of the registry under well-formed operation: map keys
and entry-object ids are unique, entry ids are below the allocator, every
bound key has a nonempty entry whose two listener handles are exactly the
connection's subscriptions for that key, unbound keys have no subscriptions
open, and the connection's handle ids are unique and below the handle
allocator. -/
structure RegInv (r : RegState) : Prop where
  subsNodup : (r.transactionSubscriptions.map Prod.fst).Nodup
  entriesNodup : (r.entries.map Prod.fst).Nodup
  eidLt : ∀ p ∈ r.entries, p.1 < r.nextEid
  bound : ∀ key eid, mapGet r.transactionSubscriptions key = some eid →
    ∃ e, mapGet r.entries eid = some e ∧ e.clients ≠ [] ∧
      ∃ ha hl, e.subscription.accountListenerId = some ha ∧
        e.subscription.logsListenerId = some hl ∧
        r.conn.accountSubs.filter (fun p => decide (p.2 = key)) = [(ha, key)] ∧
        r.conn.logsSubs.filter (fun p => decide (p.2 = key)) = [(hl, key)]
  unbound : ∀ key, mapGet r.transactionSubscriptions key = none →
    r.conn.accountSubs.filter (fun p => decide (p.2 = key)) = [] ∧
    r.conn.logsSubs.filter (fun p => decide (p.2 = key)) = []
  accNodup : (r.conn.accountSubs.map Prod.fst).Nodup
  logNodup : (r.conn.logsSubs.map Prod.fst).Nodup
  accLt : ∀ p ∈ r.conn.accountSubs, p.1 < r.conn.nextHandle
  logLt : ∀ p ∈ r.conn.logsSubs, p.1 < r.conn.nextHandle

/-! Concrete fixtures used by witnesses and counterexamples. -/

/-- A fresh upstream connection. -/
def exConn : Conn := ⟨0, [], [], []⟩

/-- Decoded curve snapshot: 100 lamports virtual SOL, 1000 virtual tokens. -/
def exD0 : BondingCurveDecoded := ⟨1000, 100, 0, 0, 0, false, "creator", false⟩

/-- Snapshot after a buy of 50 lamports for 100 tokens. -/
def exD1 : BondingCurveDecoded := ⟨900, 150, 0, 0, 0, false, "creator", false⟩

/-- Snapshot after a further buy of 50 lamports for 100 tokens. -/
def exD2 : BondingCurveDecoded := ⟨800, 200, 0, 0, 0, false, "creator", false⟩

/-- Snapshot after a sell (SOL down 30 lamports, tokens up 60). -/
def exD3 : BondingCurveDecoded := ⟨1060, 70, 0, 0, 0, false, "creator", false⟩

/-- A pump subscription whose initial fetch decoded `exD0` as the baseline. -/
def exStSub : TsState :=
  (subscribe "bc" (some ProgType.pump) (Except.ok (some exD0)) true true
    (initTs "bc") exConn).1

/-- A pump subscription whose initial fetch found no decodable account. -/
def exStNoBase : TsState :=
  (subscribe "bc" (some ProgType.pump) (Except.ok none) true true
    (initTs "bc") exConn).1

/-- `exStSub` after one account change to `exD1`: a pending buy at slot 7. -/
def exSt1 : TsState := handleAccountChange exStSub (some exD1) 7 1000

/-- `exSt1` after a same-slot account change to `exD2`: the pending buy at
slot 7 is replaced. -/
def exSt2 : TsState := handleAccountChange exSt1 (some exD2) 7 1500

/-- A decoded pump log `TradeEvent` whose `sol_amount` (999 lamports) differs
from the 50-lamport delta of `exSt1`'s pending trade. -/
def exLog : PumpTradeEventData := ⟨999, 123, true, "trader", "creatorX"⟩

/-- The subscription state the registry builds for key `k` on a successful
connect with no decodable initial account. -/
def exStSubK : TsState :=
  (subscribe "k" (some ProgType.pump) (Except.ok none) true true (initTs "k") exConn).1

/-- Successful connect of client 1 to key `k`. -/
def exConn1 : RegStep := RegStep.connect "k" 1 (some ProgType.pump) (Except.ok none) true true

/-- Successful connect of client 2 to key `k`. -/
def exConn2 : RegStep := RegStep.connect "k" 2 (some ProgType.pump) (Except.ok none) true true

/-- Successful connect of client 3 to key `k`. -/
def exConn3 : RegStep := RegStep.connect "k" 3 (some ProgType.pump) (Except.ok none) true true

/-- Connect of client 1 to key `k` whose logs-open fails after the
account-change open succeeded. -/
def exConnFail : RegStep :=
  RegStep.connect "k" 1 (some ProgType.pump) (Except.ok none) true false

/-- Cleanup of client 1 captured with entry object 0. -/
def exClose01 : RegStep := RegStep.close "k" 0 1

/-- Cleanup of client 2 captured with entry object 0. -/
def exClose02 : RegStep := RegStep.close "k" 0 2

/-- Trace with a stale duplicate release: client 1 connects and its cleanup
fires twice (error handler, then the close handler after a delay), with
client 2 re-acquiring the key in between; client 3 then connects. -/
def exTraceStale : List RegStep := [exConn1, exClose01, exConn2, exClose01, exConn3]

/-- The same trace without the stale duplicate release. -/
def exTraceNoDup : List RegStep := [exConn1, exClose01, exConn2]

/-- Two listeners acquire the same key, then both release. -/
def exTraceS3 : List RegStep := [exConn1, exConn2, exClose01, exClose02]

section MapLemmas

variable {κ α : Type} [DecidableEq κ]

theorem mapGet_nil (k : κ) : mapGet ([] : List (κ × α)) k = none := rfl

theorem mapGet_cons (p : κ × α) (m : List (κ × α)) (k : κ) :
    mapGet (p :: m) k = if p.1 = k then some p.2 else mapGet m k := by
  by_cases h : p.1 = k <;> simp [mapGet, List.find?_cons, h]

theorem mapGet_mapover_self {m : List (κ × α)} {k : κ} {v : α}
    (hany : m.any (fun p => decide (p.1 = k)) = true) :
    mapGet (m.map (fun p => if p.1 = k then (k, v) else p)) k = some v := by
  induction m with
  | nil => simp at hany
  | cons p m ih =>
    by_cases h : p.1 = k
    · simp [h, mapGet_cons]
    · have hany' : m.any (fun p => decide (p.1 = k)) = true := by
        simpa [h] using hany
      simp [h, mapGet_cons, ih hany']

theorem mapGet_append_single_self (m : List (κ × α)) (k : κ) (v : α)
    (hno : ∀ p ∈ m, p.1 ≠ k) :
    mapGet (m ++ [(k, v)]) k = some v := by
  induction m with
  | nil => simp [mapGet_cons]
  | cons p m ih =>
    have h := hno p (by simp)
    simp only [List.cons_append, mapGet_cons, h, if_false]
    exact ih (fun q hq => hno q (by simp [hq]))

theorem mapGet_mapSet_self (m : List (κ × α)) (k : κ) (v : α) :
    mapGet (mapSet m k v) k = some v := by
  unfold mapSet
  split
  · exact mapGet_mapover_self (by assumption)
  · rename_i hany
    apply mapGet_append_single_self
    intro p hp hpk
    exact hany (List.any_eq_true.mpr ⟨p, hp, by simpa using hpk⟩)

theorem mapGet_mapover_ne {m : List (κ × α)} {k k' : κ} {v : α} (h : k' ≠ k) :
    mapGet (m.map (fun p => if p.1 = k then (k, v) else p)) k' = mapGet m k' := by
  induction m with
  | nil => rfl
  | cons p m ih =>
    by_cases hp : p.1 = k
    · have hkk : ¬ k = k' := fun hc => h hc.symm
      simp [hp, mapGet_cons, hkk, hp ▸ hkk, ih]
    · simp [hp, mapGet_cons, ih]

theorem mapGet_append_single_ne (m : List (κ × α)) (k k' : κ) (v : α) (h : k' ≠ k) :
    mapGet (m ++ [(k, v)]) k' = mapGet m k' := by
  induction m with
  | nil =>
    have hkk : ¬ k = k' := fun hc => h hc.symm
    simp [mapGet_cons, mapGet_nil, hkk]
  | cons p m ih => simp [mapGet_cons, ih]

theorem mapGet_mapSet_ne (m : List (κ × α)) (k k' : κ) (v : α) (h : k' ≠ k) :
    mapGet (mapSet m k v) k' = mapGet m k' := by
  unfold mapSet
  split
  · exact mapGet_mapover_ne h
  · exact mapGet_append_single_ne m k k' v h

theorem mapSet_key_eq {m : List (κ × α)} {k : κ} {v x : α}
    (h : (k, x) ∈ mapSet m k v) : x = v := by
  unfold mapSet at h
  split at h
  · rcases List.mem_map.mp h with ⟨p, _, hp⟩
    by_cases hk : p.1 = k
    · simp [hk] at hp; exact hp.symm
    · simp [hk] at hp
      exact absurd (by simp [hp]) hk
  · rename_i hany
    rcases List.mem_append.mp h with h1 | h1
    · exact absurd (List.any_eq_true.mpr ⟨(k, x), h1, by simp⟩) hany
    · simpa using h1

theorem mem_mapSet {m : List (κ × α)} {k : κ} {v : α} {p : κ × α}
    (h : p ∈ mapSet m k v) : p = (k, v) ∨ (p ∈ m ∧ p.1 ≠ k) := by
  unfold mapSet at h
  split at h
  · rcases List.mem_map.mp h with ⟨q, hq, hpq⟩
    by_cases hk : q.1 = k
    · simp [hk] at hpq; left; exact hpq.symm
    · simp [hk] at hpq; right; exact ⟨hpq ▸ hq, hpq ▸ hk⟩
  · rename_i hany
    rcases List.mem_append.mp h with h1 | h1
    · right
      refine ⟨h1, fun hc => ?_⟩
      exact hany (List.any_eq_true.mpr ⟨p, h1, by simpa using hc⟩)
    · left; simpa using h1

theorem any_key_of_mapGet_some {m : List (κ × α)} {k : κ} {v : α}
    (h : mapGet m k = some v) : m.any (fun p => decide (p.1 = k)) = true := by
  unfold mapGet at h
  rcases Option.map_eq_some'.mp h with ⟨p, hp, _⟩
  exact List.any_eq_true.mpr ⟨p, List.mem_of_find?_eq_some hp,
    by simpa using List.find?_some hp⟩

theorem map_fixed_of_no_key {m : List (κ × α)} {k : κ} {v : α}
    (h : ∀ q ∈ m, q.1 ≠ k) :
    m.map (fun q => if q.1 = k then (k, v) else q) = m := by
  induction m with
  | nil => rfl
  | cons p m ih =>
    simp only [List.map_cons, h p (by simp), if_false]
    rw [ih (fun q hq => h q (by simp [hq]))]

theorem mapSet_mapSet_self (m : List (κ × α)) (k : κ) (v : α) :
    mapSet (mapSet m k v) k v = mapSet m k v := by
  have hany : (mapSet m k v).any (fun p => decide (p.1 = k)) = true :=
    any_key_of_mapGet_some (mapGet_mapSet_self m k v)
  conv_lhs => rw [mapSet, if_pos hany]
  have : ∀ q ∈ mapSet m k v, (fun q : κ × α => if q.1 = k then (k, v) else q) q = q := by
    intro q hq
    by_cases hk : q.1 = k
    · rcases q with ⟨a, b⟩
      simp only at hk
      subst hk
      have := mapSet_key_eq hq
      simp [this]
    · simp [hk]
  rw [List.map_congr_left this]
  simp

theorem mapSet_eq_self {m : List (κ × α)} {k : κ} {v : α}
    (hnodup : (m.map Prod.fst).Nodup) (hget : mapGet m k = some v) :
    mapSet m k v = m := by
  induction m with
  | nil => simp [mapGet_nil] at hget
  | cons p m ih =>
    simp only [List.map_cons, List.nodup_cons] at hnodup
    rw [mapGet_cons] at hget
    by_cases hk : p.1 = k
    · simp only [hk, if_true, Option.some.injEq] at hget
      have hno : ∀ q ∈ m, q.1 ≠ k := by
        intro q hq hqk
        exact hnodup.1 (hk ▸ hqk ▸ List.mem_map.mpr ⟨q, hq, rfl⟩)
      unfold mapSet
      rw [if_pos (by simp [hk])]
      simp only [List.map_cons, hk, if_true]
      rw [map_fixed_of_no_key hno]
      rcases p with ⟨a, b⟩
      simp only at hk
      simp [hk, ← hget]
    · rw [if_neg hk] at hget
      have hany : m.any (fun q => decide (q.1 = k)) = true :=
        any_key_of_mapGet_some hget
      unfold mapSet
      rw [if_pos (by simp [hany])]
      simp only [List.map_cons, hk, if_false]
      have := ih hnodup.2 hget
      unfold mapSet at this
      rw [if_pos hany] at this
      rw [this]

theorem mem_mapDelete {m : List (κ × α)} {k : κ} {p : κ × α} :
    p ∈ mapDelete m k ↔ p ∈ m ∧ p.1 ≠ k := by
  simp [mapDelete, List.mem_filter]

theorem mapDelete_idem (m : List (κ × α)) (k : κ) :
    mapDelete (mapDelete m k) k = mapDelete m k := by
  simp [mapDelete, List.filter_filter]

theorem mapGet_mapDelete_self (m : List (κ × α)) (k : κ) :
    mapGet (mapDelete m k) k = none := by
  unfold mapGet
  rw [Option.map_eq_none']
  rw [List.find?_eq_none]
  intro p hp
  simp only [mapDelete, List.mem_filter, decide_eq_true_eq] at hp
  simpa using hp.2

theorem mapGet_eq_none_iff {m : List (κ × α)} {k : κ} :
    mapGet m k = none ↔ ∀ p ∈ m, p.1 ≠ k := by
  unfold mapGet
  rw [Option.map_eq_none', List.find?_eq_none]
  constructor
  · intro h p hp; simpa using h p hp
  · intro h p hp; simpa using h p hp

theorem mapGet_mem {m : List (κ × α)} {k : κ} {v : α}
    (h : mapGet m k = some v) : (k, v) ∈ m := by
  unfold mapGet at h
  rcases Option.map_eq_some'.mp h with ⟨p, hp, hv⟩
  have h1 := List.mem_of_find?_eq_some hp
  have h2 : p.1 = k := by simpa using List.find?_some hp
  rcases p with ⟨a, b⟩
  simp only at h2 hv
  subst h2; subst hv; exact h1

theorem mem_sweepPending {now : Int} {m : List (Int × PendingEntry)}
    {p : Int × PendingEntry} (h : p ∈ sweepPending now m) : p ∈ m :=
  (List.mem_filter.mp h).1

end MapLemmas

theorem findSome?_isSome_iff {α β : Type} (f : α → Option β) (l : List α) :
    (l.findSome? f).isSome ↔ ∃ a ∈ l, (f a).isSome := by
  induction l with
  | nil => simp [List.findSome?]
  | cons a l ih =>
    rw [List.findSome?_cons]
    cases hfa : f a <;> simp [hfa, ih]

theorem exists_of_findSome?_eq_some {α β : Type} {f : α → Option β} {l : List α}
    {b : β} (h : l.findSome? f = some b) : ∃ a ∈ l, f a = some b := by
  induction l with
  | nil => simp [List.findSome?] at h
  | cons a l ih =>
    rw [List.findSome?_cons] at h
    cases hfa : f a with
    | some c =>
      rw [hfa] at h
      simp only [] at h
      exact ⟨a, by simp, by rw [hfa, h]⟩
    | none =>
      rw [hfa] at h
      rcases ih h with ⟨x, hx, hfx⟩
      exact ⟨x, by simp [hx], hfx⟩

theorem mem_windowOffsets_iff {off : Int} :
    off ∈ windowOffsets ↔ -5 ≤ off ∧ off ≤ 5 := by
  simp only [windowOffsets, List.mem_cons, List.mem_singleton, List.not_mem_nil, or_false]
  omega

/-- The correlation scan finds a match exactly when some pending trade sits at
a slot within distance 5 of the notification's slot. -/
theorem findPending_isSome_iff (m : List (Int × PendingEntry)) (slot : Int) :
    (findPending m slot).isSome ↔
      ∃ s, (slot - s).natAbs ≤ 5 ∧ (mapGet m s).isSome := by
  unfold findPending
  rw [findSome?_isSome_iff]
  constructor
  · rintro ⟨off, hoff, hsome⟩
    have hb := mem_windowOffsets_iff.mp hoff
    exact ⟨slot + off, by omega, by simpa using hsome⟩
  · rintro ⟨s, hs, hsome⟩
    refine ⟨s - slot, mem_windowOffsets_iff.mpr (by omega), ?_⟩
    have heq : slot + (s - slot) = s := by omega
    rw [heq]
    simpa using hsome

/-- What a successful correlation scan returns: a pending trade recorded at a
slot within the window. -/
theorem findPending_eq_some {m : List (Int × PendingEntry)} {slot checkSlot : Int}
    {p : PendingEntry} (h : findPending m slot = some (checkSlot, p)) :
    (slot - checkSlot).natAbs ≤ 5 ∧ mapGet m checkSlot = some p := by
  unfold findPending at h
  rcases exists_of_findSome?_eq_some h with ⟨off, hoff, hfoff⟩
  rcases Option.map_eq_some'.mp hfoff with ⟨q, hq, heq⟩
  have h1 : slot + off = checkSlot := congrArg Prod.fst heq
  have h2 : q = p := congrArg Prod.snd heq
  have hb := mem_windowOffsets_iff.mp hoff
  refine ⟨by omega, ?_⟩
  rw [← h1, hq, h2]

/-- C1: for a pair of consecutive successfully decoded snapshots, with
`solDelta = new.sol - prev.sol` and `tokenDelta = prev.token - new.token`:
if both deltas are positive, exactly one buy provisional trade with
`amountSol = solDelta / 1e9` is created (recorded pending with one 2-second
timer, nothing emitted); if both are negative, exactly one sell provisional
trade with `amountSol = |solDelta| / 1e9`; for every other sign combination
no trade is created — the handler only stores the new snapshot and runs the
staleness sweep. -/
theorem handleAccountChange_infers_trades
    (st : TsState) (prev : Reserves) (d : BondingCurveDecoded) (slot now : Int)
    (hprev : st.prevReserves = some prev) :
    (0 < d.virtual_sol_reserves - prev.virtual_sol_reserves ∧
        0 < prev.virtual_token_reserves - d.virtual_token_reserves →
      handleAccountChange st (some d) slot now =
        { st with
            pendingTrades := sweepPending now (mapSet st.pendingTrades slot
              ⟨{ type := TradeType.buy
                 amount := ((d.virtual_sol_reserves - prev.virtual_sol_reserves : Int) : Rat) / 1000000000
                 bonding_curve := st.bondingCurve
                 slot := slot
                 token_amount_delta :=
                   some (toString (prev.virtual_token_reserves - d.virtual_token_reserves))
                 user := some d.creator
                 signature := none }, now, st.nextId⟩)
            timers := st.timers ++ [(slot, now + 2000)]
            nextId := st.nextId + 1
            prevReserves := some ⟨d.virtual_sol_reserves, d.virtual_token_reserves⟩ }) ∧
    (d.virtual_sol_reserves - prev.virtual_sol_reserves < 0 ∧
        prev.virtual_token_reserves - d.virtual_token_reserves < 0 →
      handleAccountChange st (some d) slot now =
        { st with
            pendingTrades := sweepPending now (mapSet st.pendingTrades slot
              ⟨{ type := TradeType.sell
                 amount := (((d.virtual_sol_reserves - prev.virtual_sol_reserves).natAbs : Nat) : Rat) / 1000000000
                 bonding_curve := st.bondingCurve
                 slot := slot
                 token_amount_delta :=
                   some (toString (prev.virtual_token_reserves - d.virtual_token_reserves).natAbs)
                 user := none
                 signature := none }, now, st.nextId⟩)
            timers := st.timers ++ [(slot, now + 2000)]
            nextId := st.nextId + 1
            prevReserves := some ⟨d.virtual_sol_reserves, d.virtual_token_reserves⟩ }) ∧
    (¬ (0 < d.virtual_sol_reserves - prev.virtual_sol_reserves ∧
          0 < prev.virtual_token_reserves - d.virtual_token_reserves) →
     ¬ (d.virtual_sol_reserves - prev.virtual_sol_reserves < 0 ∧
          prev.virtual_token_reserves - d.virtual_token_reserves < 0) →
      handleAccountChange st (some d) slot now =
        { st with
            pendingTrades := sweepPending now st.pendingTrades
            prevReserves := some ⟨d.virtual_sol_reserves, d.virtual_token_reserves⟩ }) := by
  refine ⟨?_, ?_, ?_⟩
  · intro h
    simp only [handleAccountChange, hprev]
    rw [if_pos h]
  · intro h
    have hnotbuy : ¬ (0 < d.virtual_sol_reserves - prev.virtual_sol_reserves ∧
        0 < prev.virtual_token_reserves - d.virtual_token_reserves) := by
      rintro ⟨h1, _⟩
      omega
    simp only [handleAccountChange, hprev]
    rw [if_neg hnotbuy, if_pos h]
  · intro h1 h2
    simp only [handleAccountChange, hprev]
    rw [if_neg h1, if_neg h2]

/-- Witness for C1: a buy, a sell, and a non-trade mutation, all on concrete
snapshots. -/
theorem handleAccountChange_infers_trades_witness :
    mapGet (handleAccountChange exStSub (some exD1) 7 1000).pendingTrades 7 =
      some ⟨{ type := TradeType.buy
              amount := (50 : Rat) / 1000000000
              bonding_curve := "bc"
              slot := 7
              token_amount_delta := some "100"
              user := some "creator"
              signature := none }, 1000, 0⟩ ∧
    (handleAccountChange exStSub (some exD3) 9 1000).pendingTrades =
      [(9, ⟨{ type := TradeType.sell
              amount := (30 : Rat) / 1000000000
              bonding_curve := "bc"
              slot := 9
              token_amount_delta := some "60"
              user := none
              signature := none }, 1000, 0⟩)] ∧
    (handleAccountChange exStSub (some exD0) 9 1000).pendingTrades = [] := by
  have h := handleAccountChange_infers_trades exStSub ⟨100, 1000⟩ exD1 7 1000 rfl
  have hb := h.1 (by decide)
  have h2 := handleAccountChange_infers_trades exStSub ⟨100, 1000⟩ exD3 9 1000 rfl
  have hs := h2.2.1 (by decide)
  have h3 := handleAccountChange_infers_trades exStSub ⟨100, 1000⟩ exD0 9 1000 rfl
  have hn := h3.2.2 (by decide) (by decide)
  refine ⟨?_, ?_, ?_⟩
  · rw [hb]; rfl
  · rw [hs]; rfl
  · rw [hn]; rfl

/-- C6: a notification whose bytes are shorter than the 8-byte discriminator
or that the decoder rejects produces zero events and leaves the stored
snapshot and the pending-trade table unchanged (the handler returns the state
untouched; being a total function, it raises nothing); likewise a logs
notification whose parse throws, yields no events, or yields only
unrecognized event names. -/
theorem decode_failure_is_no_information
    (st : TsState) (decoder : List Nat → Option BondingCurveDecoded)
    (bytes : List Nat) (slot now : Int) (sig : Option String) :
    ((bytes.length < 8 ∨ decoder bytes = none) →
      handleAccountChange st (decodeAccountData decoder bytes) slot now = st) ∧
    handleLogs st none slot sig = st ∧
    handleLogs st (some []) slot sig = st ∧
    (∀ name, handleLogs st (some [ParsedEvent.otherEvent name]) slot sig = st) := by
  refine ⟨?_, ?_, ?_, ?_⟩
  · intro h
    have hdec : decodeAccountData decoder bytes = none := by
      unfold decodeAccountData
      rcases h with h | h
      · rw [if_pos h]
      · split
        · rfl
        · exact h
    rw [hdec]
    rfl
  · unfold handleLogs
    split <;> rfl
  · unfold handleLogs
    split <;> rfl
  · intro name
    unfold handleLogs
    split <;> rfl

/-- Witness for C6: a 3-byte buffer and an always-rejecting decoder on a
concrete state. -/
theorem decode_failure_is_no_information_witness :
    handleAccountChange exSt1 (decodeAccountData (fun _ => none) [1, 2, 3]) 9 2000 = exSt1 ∧
    handleLogs exSt1 none 9 none = exSt1 := by
  have h := decode_failure_is_no_information exSt1 (fun _ => none) [1, 2, 3] 9 2000 none
  exact ⟨h.1 (Or.inl (by decide)), h.2.1⟩

/-- C3: for a decoded pump log trade event at slot `S`, the correlation scan
succeeds exactly when some pending provisional trade sits at a slot `S'` with
`|S - S'| ≤ 5`; on a match the found pending entry is removed from the table
and the single merged event is emitted; with no pending entry in the window
the table is untouched and a standalone event built purely from the log data
is emitted. -/
theorem log_correlation_window
    (st : TsState) (d : PumpTradeEventData) (slot : Int) (sig : Option String)
    (hparser : st.hasEventParser = true) (hpt : st.programType = some ProgType.pump) :
    ((findPending st.pendingTrades slot).isSome ↔
      ∃ s, (slot - s).natAbs ≤ 5 ∧ (mapGet st.pendingTrades s).isSome) ∧
    (∀ checkSlot pending,
      findPending st.pendingTrades slot = some (checkSlot, pending) →
      (slot - checkSlot).natAbs ≤ 5 ∧
      mapGet st.pendingTrades checkSlot = some pending ∧
      handleLogs st (some [ParsedEvent.tradeEvent d]) slot sig =
        { st with
            pendingTrades := mapDelete st.pendingTrades checkSlot
            eventCount := st.eventCount + 1
            emitted := st.emitted ++ [{ pending.event with
              user := some d.creator
              signature := sig
              amount := (d.sol_amount : Rat) / 1000000000 }]
            emittedIds := st.emittedIds ++ [pending.id] }) ∧
    (findPending st.pendingTrades slot = none →
      handleLogs st (some [ParsedEvent.tradeEvent d]) slot sig =
        { st with
            eventCount := st.eventCount + 1
            emitted := st.emitted ++
              [{ type := if d.is_buy then TradeType.buy else TradeType.sell
                 amount := (d.sol_amount : Rat) / 1000000000
                 bonding_curve := st.bondingCurve
                 slot := slot
                 token_amount_delta := some (toString d.token_amount)
                 user := some d.creator
                 signature := sig }] }) := by
  have hred : handleLogs st (some [ParsedEvent.tradeEvent d]) slot sig =
      processParsedEvent st (decide (st.programType = some ProgType.pumpAmm))
        slot sig (ParsedEvent.tradeEvent d) := by
    unfold handleLogs
    rw [if_pos hparser]
    rfl
  have hamm : decide (st.programType = some ProgType.pumpAmm) = false := by
    simp [hpt]
  refine ⟨findPending_isSome_iff st.pendingTrades slot, ?_, ?_⟩
  · intro checkSlot pending hfind
    have hfound := findPending_eq_some hfind
    refine ⟨hfound.1, hfound.2, ?_⟩
    rw [hred, hamm]
    unfold processParsedEvent
    simp only [hfind]
    rfl
  · intro hfind
    rw [hred, hamm]
    unfold processParsedEvent
    simp only [hfind]
    rfl

/-- Witness for C3: on the concrete state with a pending buy at slot 7, a log
trade at slot 9 merges with it (window hit at distance 2) and a log trade at
slot 20 is emitted standalone. -/
theorem log_correlation_window_witness :
    (handleLogs exSt1 (some [ParsedEvent.tradeEvent exLog]) 9 (some "sig")).pendingTrades = [] ∧
    (handleLogs exSt1 (some [ParsedEvent.tradeEvent exLog]) 20 (some "sig")).pendingTrades =
      exSt1.pendingTrades := by
  have h9 := log_correlation_window exSt1 exLog 9 (some "sig") rfl rfl
  have h20 := log_correlation_window exSt1 exLog 20 (some "sig") rfl rfl
  constructor
  · have hmerge := (h9.2.1 7
      ⟨{ type := TradeType.buy
         amount := (50 : Rat) / 1000000000
         bonding_curve := "bc"
         slot := 7
         token_amount_delta := some "100"
         user := some "creator"
         signature := none }, 1000, 0⟩ (by rfl)).2.2
    rw [hmerge]
    rfl
  · have hstandalone := h20.2.2 (by rfl)
    rw [hstandalone]

/-- Counterexample to C2: on the state holding a pending buy inferred from a
50-lamport delta (amount `50/1e9`), a matching log trade event carrying
`sol_amount = 999` produces a merged event whose `amount` is `999/1e9` — the
log's amount, not the provisional trade's — so the provisional trade's
inferred sol amount is not carried unchanged. -/
theorem merged_event_amount_counterexample :
    mapGet exSt1.pendingTrades 7 =
      some ⟨{ type := TradeType.buy
              amount := (50 : Rat) / 1000000000
              bonding_curve := "bc"
              slot := 7
              token_amount_delta := some "100"
              user := some "creator"
              signature := none }, 1000, 0⟩ ∧
    (handleLogs exSt1 (some [ParsedEvent.tradeEvent exLog]) 9 (some "sig")).emitted =
      [{ type := TradeType.buy
         amount := (999 : Rat) / 1000000000
         bonding_curve := "bc"
         slot := 7
         token_amount_delta := some "100"
         user := some "creatorX"
         signature := some "sig" }] ∧
    (999 : Rat) / 1000000000 ≠ (50 : Rat) / 1000000000 := by
  refine ⟨rfl, rfl, by norm_num⟩

/-- C2 as amended: the single merged event is the provisional trade's event
with the trader identity, the signature, and the sol amount taken from the log
event; the provisional trade's delta-derived direction, token amount delta,
slot, and curve are carried unchanged, and the log's direction never overrides
the delta-derived direction. -/
theorem merged_event_fields
    (st : TsState) (d : PumpTradeEventData) (slot : Int) (sig : Option String)
    (checkSlot : Int) (pending : PendingEntry)
    (hparser : st.hasEventParser = true) (hpt : st.programType = some ProgType.pump)
    (hfind : findPending st.pendingTrades slot = some (checkSlot, pending)) :
    handleLogs st (some [ParsedEvent.tradeEvent d]) slot sig =
      { st with
          pendingTrades := mapDelete st.pendingTrades checkSlot
          eventCount := st.eventCount + 1
          emitted := st.emitted ++
            [{ pending.event with
                user := some d.creator, signature := sig,
                amount := (d.sol_amount : Rat) / 1000000000 }]
          emittedIds := st.emittedIds ++ [pending.id] } := by
  have hred : handleLogs st (some [ParsedEvent.tradeEvent d]) slot sig =
      processParsedEvent st (decide (st.programType = some ProgType.pumpAmm))
        slot sig (ParsedEvent.tradeEvent d) := by
    unfold handleLogs
    rw [if_pos hparser]
    rfl
  have hamm : decide (st.programType = some ProgType.pumpAmm) = false := by
    simp [hpt]
  rw [hred, hamm]
  unfold processParsedEvent
  simp only [hfind]
  rfl

/-- Witness for the amended C2, on the concrete pending buy and log event. -/
theorem merged_event_fields_witness :
    handleLogs exSt1 (some [ParsedEvent.tradeEvent exLog]) 9 (some "sig") =
      { exSt1 with
          pendingTrades := mapDelete exSt1.pendingTrades 7
          eventCount := exSt1.eventCount + 1
          emitted := exSt1.emitted ++
            [{ type := TradeType.buy, amount := (999 : Rat) / 1000000000,
                bonding_curve := "bc", slot := 7, token_amount_delta := some "100",
                user := some "creatorX", signature := some "sig" }]
          emittedIds := exSt1.emittedIds ++ [0] } := by
  have h := merged_event_fields exSt1 exLog 9 (some "sig") 7
    ⟨{ type := TradeType.buy
       amount := (50 : Rat) / 1000000000
       bonding_curve := "bc"
       slot := 7
       token_amount_delta := some "100"
       user := some "creator"
       signature := none }, 1000, 0⟩ rfl rfl rfl
  rw [h]
  rfl

/-- Counterexample to C5: `subscribe` pre-seeds `prevReserves` from the
initial `getAccountInfo` fetch, so the very first account-change notification
delivered afterwards is compared against that baseline and here creates a
pending provisional trade. -/
theorem first_notification_trade_counterexample :
    exStSub.prevReserves = some ⟨100, 1000⟩ ∧
    (handleAccountChange exStSub (some exD1) 7 1000).pendingTrades.length = 1 ∧
    (handleAccountChange exStSub (some exD1) 7 1000).timers.length = 1 := by
  exact ⟨rfl, rfl, rfl⟩

/-- C5 as amended: only when the initial fetch at subscribe time yields no
decodable baseline does the first account-change notification merely establish
the baseline: it then creates no pending trade, schedules no timer, emits
nothing, and stores the decoded snapshot as the new baseline.  When the
initial fetch did decode, `prevReserves` is already seeded before any
notification arrives, and the first notification is treated as a delta against
it (see the counterexample). -/
theorem first_notification_baseline_only
    (key : String) (pt : ProgType) (c : Conn) (d : BondingCurveDecoded)
    (slot now : Int) :
    ((subscribe key (some pt) (Except.ok none) true true (initTs key) c).1).prevReserves
        = none ∧
    handleAccountChange
        ((subscribe key (some pt) (Except.ok none) true true (initTs key) c).1)
        (some d) slot now =
      { (subscribe key (some pt) (Except.ok none) true true (initTs key) c).1 with
          prevReserves := some ⟨d.virtual_sol_reserves, d.virtual_token_reserves⟩ } ∧
    (handleAccountChange
        ((subscribe key (some pt) (Except.ok none) true true (initTs key) c).1)
        (some d) slot now).pendingTrades = [] ∧
    (handleAccountChange
        ((subscribe key (some pt) (Except.ok none) true true (initTs key) c).1)
        (some d) slot now).timers = [] ∧
    (handleAccountChange
        ((subscribe key (some pt) (Except.ok none) true true (initTs key) c).1)
        (some d) slot now).emitted = [] := by
  exact ⟨rfl, rfl, rfl, rfl, rfl⟩

/-- Any entry of the pending table after an account change is either an old
entry or the freshly allocated provisional trade: keyed by the notification
slot, stamped with the state's allocation counter and timestamp `now`,
signature-free, and without a user when it is a sell. -/
theorem handleAccountChange_pending_mem
    {st : TsState} {d : BondingCurveDecoded} {slot now : Int}
    {q : Int × PendingEntry}
    (hq : q ∈ (handleAccountChange st (some d) slot now).pendingTrades) :
    q ∈ st.pendingTrades ∨
    (q.1 = slot ∧ q.2.id = st.nextId ∧ q.2.timestamp = now ∧
      q.2.event.signature = none ∧
      (q.2.event.type = TradeType.sell → q.2.event.user = none)) := by
  simp only [handleAccountChange] at hq
  cases hprev : st.prevReserves with
  | none =>
    rw [hprev] at hq
    exact Or.inl (mem_sweepPending hq)
  | some prev =>
    rw [hprev] at hq
    simp only [] at hq
    by_cases hbuy : 0 < d.virtual_sol_reserves - prev.virtual_sol_reserves ∧
        0 < prev.virtual_token_reserves - d.virtual_token_reserves
    · rw [if_pos hbuy] at hq
      have h1 := mem_sweepPending hq
      rcases mem_mapSet h1 with h2 | h2
      · right
        rw [h2]
        refine ⟨rfl, rfl, rfl, rfl, ?_⟩
        intro hcon
        exact absurd hcon (by simp)
      · exact Or.inl h2.1
    · rw [if_neg hbuy] at hq
      by_cases hsell : d.virtual_sol_reserves - prev.virtual_sol_reserves < 0 ∧
          prev.virtual_token_reserves - d.virtual_token_reserves < 0
      · rw [if_pos hsell] at hq
        have h1 := mem_sweepPending hq
        rcases mem_mapSet h1 with h2 | h2
        · right
          rw [h2]
          exact ⟨rfl, rfl, rfl, rfl, fun _ => rfl⟩
        · exact Or.inl h2.1
      · rw [if_neg hsell] at hq
        exact Or.inl (mem_sweepPending hq)

/-- An account change emits nothing and never decreases the allocation
counter. -/
theorem handleAccountChange_emits_nothing (st : TsState)
    (decoded : Option BondingCurveDecoded) (slot now : Int) :
    (handleAccountChange st decoded slot now).emitted = st.emitted ∧
    (handleAccountChange st decoded slot now).emittedIds = st.emittedIds ∧
    st.nextId ≤ (handleAccountChange st decoded slot now).nextId := by
  cases decoded with
  | none => exact ⟨rfl, rfl, le_refl _⟩
  | some d =>
    simp only [handleAccountChange]
    cases hprev : st.prevReserves with
    | none => exact ⟨rfl, rfl, le_refl _⟩
    | some prev =>
      simp only []
      split
      · exact ⟨rfl, rfl, by simp⟩
      · split
        · exact ⟨rfl, rfl, by simp⟩
        · exact ⟨rfl, rfl, le_refl _⟩

/-- Effects of one parsed log event on the pending table, the emitted-id list
and the allocation counter: the table only shrinks, any newly emitted id was
pending, and the counter is untouched. -/
theorem processParsedEvent_effects (st : TsState) (isAmm : Bool) (slot : Int)
    (sig : Option String) (e : ParsedEvent) :
    (∀ p ∈ (processParsedEvent st isAmm slot sig e).pendingTrades,
        p ∈ st.pendingTrades) ∧
    (∀ i ∈ (processParsedEvent st isAmm slot sig e).emittedIds,
        i ∈ st.emittedIds ∨ ∃ p ∈ st.pendingTrades, p.2.id = i) ∧
    (processParsedEvent st isAmm slot sig e).nextId = st.nextId := by
  cases e with
  | otherEvent name => exact ⟨fun p hp => hp, fun i hi => Or.inl hi, rfl⟩
  | buyEvent d =>
    cases isAmm with
    | false => exact ⟨fun p hp => hp, fun i hi => Or.inl hi, rfl⟩
    | true =>
      unfold processParsedEvent
      simp only []
      by_cases hpool : d.pool = st.bondingCurve
      · rw [if_pos hpool]
        exact ⟨fun p hp => hp, fun i hi => Or.inl hi, rfl⟩
      · rw [if_neg hpool]
        exact ⟨fun p hp => hp, fun i hi => Or.inl hi, rfl⟩
  | sellEvent d =>
    cases isAmm with
    | false => exact ⟨fun p hp => hp, fun i hi => Or.inl hi, rfl⟩
    | true =>
      unfold processParsedEvent
      simp only []
      by_cases hpool : d.pool = st.bondingCurve
      · rw [if_pos hpool]
        exact ⟨fun p hp => hp, fun i hi => Or.inl hi, rfl⟩
      · rw [if_neg hpool]
        exact ⟨fun p hp => hp, fun i hi => Or.inl hi, rfl⟩
  | tradeEvent d =>
    cases isAmm with
    | true => exact ⟨fun p hp => hp, fun i hi => Or.inl hi, rfl⟩
    | false =>
      unfold processParsedEvent
      cases hf : findPending st.pendingTrades slot with
      | none =>
        simp only [hf]
        exact ⟨fun p hp => hp, fun i hi => Or.inl hi, rfl⟩
      | some cp =>
        rcases cp with ⟨checkSlot, pending⟩
        simp only [hf]
        refine ⟨?_, ?_, rfl⟩
        · intro p hp
          exact (mem_mapDelete.mp hp).1
        · intro i hi
          rcases List.mem_append.mp hi with hi | hi
          · exact Or.inl hi
          · right
            have hpend := (findPending_eq_some hf).2
            exact ⟨(checkSlot, pending), mapGet_mem hpend, (List.mem_singleton.mp hi).symm⟩

/-- Effects of a whole logs notification: the pending table only shrinks,
any newly emitted id was pending, and the allocation counter is untouched. -/
theorem handleLogs_effects (st : TsState) (parsed : Option (List ParsedEvent))
    (slot : Int) (sig : Option String) :
    (∀ p ∈ (handleLogs st parsed slot sig).pendingTrades, p ∈ st.pendingTrades) ∧
    (∀ i ∈ (handleLogs st parsed slot sig).emittedIds,
        i ∈ st.emittedIds ∨ ∃ p ∈ st.pendingTrades, p.2.id = i) ∧
    (handleLogs st parsed slot sig).nextId = st.nextId := by
  have key : ∀ (evs : List ParsedEvent) (s0 : TsState) (amm : Bool),
      (∀ p ∈ (evs.foldl (fun s ev => processParsedEvent s amm slot sig ev) s0).pendingTrades,
          p ∈ s0.pendingTrades) ∧
      (∀ i ∈ (evs.foldl (fun s ev => processParsedEvent s amm slot sig ev) s0).emittedIds,
          i ∈ s0.emittedIds ∨ ∃ p ∈ s0.pendingTrades, p.2.id = i) ∧
      (evs.foldl (fun s ev => processParsedEvent s amm slot sig ev) s0).nextId = s0.nextId := by
    intro evs
    induction evs with
    | nil => exact fun s0 amm => ⟨fun p hp => hp, fun i hi => Or.inl hi, rfl⟩
    | cons e evs ih =>
      intro s0 amm
      have he := processParsedEvent_effects s0 amm slot sig e
      have ht := ih (processParsedEvent s0 amm slot sig e) amm
      refine ⟨?_, ?_, ?_⟩
      · intro p hp
        exact he.1 p (ht.1 p hp)
      · intro i hi
        rcases ht.2.1 i hi with hi1 | ⟨p, hp, hpi⟩
        · rcases he.2.1 i hi1 with hi2 | hex
          · exact Or.inl hi2
          · exact Or.inr hex
        · exact Or.inr ⟨p, he.1 p hp, hpi⟩
      · exact ht.2.2.trans he.2.2
  unfold handleLogs
  split
  · cases parsed with
    | none => exact ⟨fun p hp => hp, fun i hi => Or.inl hi, rfl⟩
    | some evs => exact key evs st _
  · exact ⟨fun p hp => hp, fun i hi => Or.inl hi, rfl⟩

/-- Effects of the timeout callback: it removes what it emits from the table,
any emitted id was pending, and the counter is untouched. -/
theorem fireTimeout_effects (st : TsState) (slot : Int) :
    (∀ p ∈ (fireTimeout st slot).pendingTrades, p ∈ st.pendingTrades) ∧
    (∀ i ∈ (fireTimeout st slot).emittedIds,
        i ∈ st.emittedIds ∨ ∃ p ∈ st.pendingTrades, p.2.id = i) ∧
    (fireTimeout st slot).nextId = st.nextId := by
  unfold fireTimeout
  cases hg : mapGet st.pendingTrades slot with
  | none => exact ⟨fun p hp => hp, fun i hi => Or.inl hi, rfl⟩
  | some pending =>
    refine ⟨?_, ?_, rfl⟩
    · intro p hp
      exact (mem_mapDelete.mp hp).1
    · intro i hi
      rcases List.mem_append.mp hi with hi | hi
      · exact Or.inl hi
      · right
        exact ⟨(slot, pending), mapGet_mem hg, (List.mem_singleton.mp hi).symm⟩

/-- A pending-record id that is not in the table, not yet emitted, and below
the allocation counter can never be emitted by any later sequence of steps:
every emission draws its id from the table at the time, and fresh records take
ids at or above the counter. -/
theorem id_never_emitted {i : Nat} :
    ∀ (tr : List TsStep) (st : TsState),
      (∀ p ∈ st.pendingTrades, p.2.id ≠ i) → i ∉ st.emittedIds → i < st.nextId →
      i ∉ (runTs st tr).emittedIds := by
  intro tr
  induction tr with
  | nil => exact fun st _ h2 _ => h2
  | cons s tr ih =>
    intro st h1 h2 h3
    have hstep : (∀ p ∈ (tsStep st s).pendingTrades, p.2.id ≠ i) ∧
        i ∉ (tsStep st s).emittedIds ∧ i < (tsStep st s).nextId := by
      cases s with
      | account decoded slot now =>
        cases decoded with
        | none => exact ⟨h1, h2, h3⟩
        | some d =>
          have he := handleAccountChange_emits_nothing st (some d) slot now
          refine ⟨?_, ?_, ?_⟩
          · intro p hp
            rcases handleAccountChange_pending_mem hp with h | h
            · exact h1 p h
            · rw [h.2.1]; omega
          · show i ∉ (handleAccountChange st (some d) slot now).emittedIds
            rw [he.2.1]; exact h2
          · show i < (handleAccountChange st (some d) slot now).nextId
            omega
      | logs parsed slot sig =>
        have he := handleLogs_effects st parsed slot sig
        refine ⟨?_, ?_, ?_⟩
        · intro p hp
          exact h1 p (he.1 p hp)
        · intro hcon
          rcases he.2.1 i hcon with hc | ⟨p, hp, hpi⟩
          · exact h2 hc
          · exact h1 p hp hpi
        · show i < (handleLogs st parsed slot sig).nextId
          rw [he.2.2]; exact h3
      | fire slot =>
        show _ ∧ _ ∧ _
        simp only [tsStep]
        split
        · have he := fireTimeout_effects
            { st with timers := st.timers.eraseP (fun t => decide (t.1 = slot)) } slot
          refine ⟨?_, ?_, ?_⟩
          · intro p hp
            exact h1 p (he.1 p hp)
          · intro hcon
            rcases he.2.1 i hcon with hc | ⟨p, hp, hpi⟩
            · exact h2 hc
            · exact h1 p hp hpi
          · rw [he.2.2]; exact h3
        · exact ⟨h1, h2, h3⟩
    exact ih (tsStep st s) hstep.1 hstep.2.1 hstep.2.2

/-- The pending-table invariant (no signature; sells carry no user) is
preserved by every event-loop step, so it holds in every reachable state. -/
theorem pendInv_tsStep {st : TsState} (h : PendInv st) (s : TsStep) :
    PendInv (tsStep st s) := by
  cases s with
  | account decoded slot now =>
    cases decoded with
    | none => exact h
    | some d =>
      intro p hp
      rcases handleAccountChange_pending_mem hp with hm | hm
      · exact h p hm
      · exact ⟨hm.2.2.2.1, hm.2.2.2.2⟩
  | logs parsed slot sig =>
    intro p hp
    exact h p ((handleLogs_effects st parsed slot sig).1 p hp)
  | fire slot =>
    by_cases hc : st.timers.any (fun t => decide (t.1 = slot)) = true
    · have heq : tsStep st (TsStep.fire slot) =
          fireTimeout { st with timers := st.timers.eraseP (fun t => decide (t.1 = slot)) } slot := by
        simp only [tsStep, if_pos hc]
      rw [heq]
      intro p hp
      exact h p ((fireTimeout_effects
        { st with timers := st.timers.eraseP (fun t => decide (t.1 = slot)) } slot).1 p hp)
    · have heq : tsStep st (TsStep.fire slot) = st := by
        simp only [tsStep, if_neg hc]
      rw [heq]
      exact h

/-- Counterexample to C4, on a complete concrete run: baseline, then a buy
inferred at slot 7 (record id 0), then a second buy inferred at the same slot
(record id 1, replacing id 0 in the table), then both scheduled timeouts fire.
The only event ever emitted is record 1's, and it carries `user = "creator"`
(the curve creator placed in the trader-identity field of buy provisionals) —
so the timeout emission is not free of trader identity, and the inferred trade
with record id 0 is dropped without ever being emitted: the run ends with an
empty table, no timers, two allocated records, and one emission. -/
theorem timeout_emission_counterexample :
    (runTs exStSub [TsStep.account (some exD1) 7 1000, TsStep.account (some exD2) 7 1500,
        TsStep.fire 7, TsStep.fire 7]).emitted =
      [{ type := TradeType.buy, amount := (50 : Rat) / 1000000000, bonding_curve := "bc",
         slot := 7, token_amount_delta := some "100", user := some "creator",
         signature := none }] ∧
    (runTs exStSub [TsStep.account (some exD1) 7 1000, TsStep.account (some exD2) 7 1500,
        TsStep.fire 7, TsStep.fire 7]).emittedIds = [1] ∧
    (0 : Nat) ∉ (runTs exStSub [TsStep.account (some exD1) 7 1000,
        TsStep.account (some exD2) 7 1500, TsStep.fire 7, TsStep.fire 7]).emittedIds ∧
    (runTs exStSub [TsStep.account (some exD1) 7 1000, TsStep.account (some exD2) 7 1500,
        TsStep.fire 7, TsStep.fire 7]).nextId = 2 ∧
    (runTs exStSub [TsStep.account (some exD1) 7 1000, TsStep.account (some exD2) 7 1500,
        TsStep.fire 7, TsStep.fire 7]).pendingTrades = [] ∧
    (runTs exStSub [TsStep.account (some exD1) 7 1000, TsStep.account (some exD2) 7 1500,
        TsStep.fire 7, TsStep.fire 7]).timers = [] := by
  refine ⟨rfl, rfl, by decide, rfl, rfl, rfl⟩

/-- C4 as amended: a provisional trade still recorded for a slot when that
slot's 2-second timeout fires is emitted exactly once and removed from the
table; the emitted event carries no signature, and a sell carries no user
(a buy carries the curve creator in the user field).  An account change never
emits anything itself, and when it infers a new trade at a slot that already
holds a pending entry, every entry then recorded at that slot is the freshly
allocated one — the older provisional trade is dropped from the table without
emission. -/
theorem timeout_emission
    (st : TsState) (slot : Int) (pending : PendingEntry)
    (hinv : PendInv st)
    (hget : mapGet st.pendingTrades slot = some pending) :
    fireTimeout st slot =
      { st with
          pendingTrades := mapDelete st.pendingTrades slot
          eventCount := st.eventCount + 1
          emitted := st.emitted ++ [pending.event]
          emittedIds := st.emittedIds ++ [pending.id] } ∧
    pending.event.signature = none ∧
    (pending.event.type = TradeType.sell → pending.event.user = none) ∧
    (∀ decoded slot2 now,
      (handleAccountChange st decoded slot2 now).emitted = st.emitted) ∧
    (∀ d prev now x, st.prevReserves = some prev →
      pending.id < st.nextId →
      ((0 < d.virtual_sol_reserves - prev.virtual_sol_reserves ∧
          0 < prev.virtual_token_reserves - d.virtual_token_reserves) ∨
        (d.virtual_sol_reserves - prev.virtual_sol_reserves < 0 ∧
          prev.virtual_token_reserves - d.virtual_token_reserves < 0)) →
      (slot, x) ∈ (handleAccountChange st (some d) slot now).pendingTrades →
      x ≠ pending) := by
  have hmem := mapGet_mem hget
  have hpinv := hinv (slot, pending) hmem
  refine ⟨?_, hpinv.1, hpinv.2, ?_, ?_⟩
  · unfold fireTimeout
    rw [hget]
  · intro decoded slot2 now
    exact (handleAccountChange_emits_nothing st decoded slot2 now).1
  · intro d prev now x hprev hlt hsign hx
    have htab : ∃ e : PendingEntry, e.id = st.nextId ∧
        (handleAccountChange st (some d) slot now).pendingTrades =
          sweepPending now (mapSet st.pendingTrades slot e) := by
      rcases hsign with hbuy | hsell
      · refine ⟨⟨{ type := TradeType.buy,
                     amount := ((d.virtual_sol_reserves - prev.virtual_sol_reserves : Int) : Rat) / 1000000000,
                     bonding_curve := st.bondingCurve, slot := slot,
                     token_amount_delta := some (toString (prev.virtual_token_reserves - d.virtual_token_reserves)),
                     user := some d.creator, signature := none }, now, st.nextId⟩, rfl, ?_⟩
        simp only [handleAccountChange, hprev]
        rw [if_pos hbuy]
      · have hnotbuy : ¬ (0 < d.virtual_sol_reserves - prev.virtual_sol_reserves ∧
            0 < prev.virtual_token_reserves - d.virtual_token_reserves) := by
          rintro ⟨h1, _⟩
          omega
        refine ⟨⟨{ type := TradeType.sell,
                     amount := (((d.virtual_sol_reserves - prev.virtual_sol_reserves).natAbs : Nat) : Rat) / 1000000000,
                     bonding_curve := st.bondingCurve, slot := slot,
                     token_amount_delta := some (toString (prev.virtual_token_reserves - d.virtual_token_reserves).natAbs),
                     user := none, signature := none }, now, st.nextId⟩, rfl, ?_⟩
        simp only [handleAccountChange, hprev]
        rw [if_neg hnotbuy, if_pos hsell]
    rcases htab with ⟨e, hid, htab⟩
    rw [htab] at hx
    rcases mem_mapSet (mem_sweepPending hx) with hx1 | hx1
    · have hxe : x = e := congrArg Prod.snd hx1
      intro hcon
      rw [hcon] at hxe
      have : pending.id = st.nextId := by rw [hxe, hid]
      omega
    · exact absurd rfl hx1.2

/-- Witness for the amended C4: firing slot 7's timeout on the state with the
concrete pending buy emits it once, removes it, and the event carries no
signature. -/
theorem timeout_emission_witness :
    (fireTimeout exSt1 7).emitted =
      [{ type := TradeType.buy, amount := (50 : Rat) / 1000000000, bonding_curve := "bc",
         slot := 7, token_amount_delta := some "100", user := some "creator",
         signature := none }] ∧
    (fireTimeout exSt1 7).pendingTrades = [] := by
  have h := timeout_emission exSt1 7
    ⟨{ type := TradeType.buy, amount := (50 : Rat) / 1000000000, bonding_curve := "bc",
       slot := 7, token_amount_delta := some "100", user := some "creator",
       signature := none }, 1000, 0⟩ (by unfold PendInv; decide) rfl
  rw [h.1]
  exact ⟨rfl, rfl⟩

/-- C10: when an account change infers a trade at a slot that already holds a
pending provisional trade, the freshly allocated record replaces the old one
(every entry then at that slot carries the new allocation id, and one such
entry exists), the replaced record is gone from the table, and — since every
later emission (log-match or timeout) draws its record from the table — the
replaced provisional trade is never emitted by any later sequence of steps. -/
theorem pending_replacement
    (st : TsState) (slot now : Int) (d : BondingCurveDecoded) (prev : Reserves)
    (pending : PendingEntry)
    (hinv : TsInv st)
    (hprev : st.prevReserves = some prev)
    (hget : mapGet st.pendingTrades slot = some pending)
    (hsign : (0 < d.virtual_sol_reserves - prev.virtual_sol_reserves ∧
        0 < prev.virtual_token_reserves - d.virtual_token_reserves) ∨
      (d.virtual_sol_reserves - prev.virtual_sol_reserves < 0 ∧
        prev.virtual_token_reserves - d.virtual_token_reserves < 0)) :
    (∃ x, (slot, x) ∈ (handleAccountChange st (some d) slot now).pendingTrades ∧
        x.id = st.nextId) ∧
    (∀ x, (slot, x) ∈ (handleAccountChange st (some d) slot now).pendingTrades →
        x.id = st.nextId ∧ x ≠ pending) ∧
    (slot, pending) ∉ (handleAccountChange st (some d) slot now).pendingTrades ∧
    (∀ tr, pending.id ∉
        (runTs (handleAccountChange st (some d) slot now) tr).emittedIds) := by
  have hmem := mapGet_mem hget
  have hltp : pending.id < st.nextId := hinv.2.1 (slot, pending) hmem
  have htab : ∃ e : PendingEntry, e.id = st.nextId ∧ e.timestamp = now ∧
      (handleAccountChange st (some d) slot now).pendingTrades =
        sweepPending now (mapSet st.pendingTrades slot e) := by
    rcases hsign with hbuy | hsell
    · refine ⟨⟨{ type := TradeType.buy,
                   amount := ((d.virtual_sol_reserves - prev.virtual_sol_reserves : Int) : Rat) / 1000000000,
                   bonding_curve := st.bondingCurve, slot := slot,
                   token_amount_delta := some (toString (prev.virtual_token_reserves - d.virtual_token_reserves)),
                   user := some d.creator, signature := none }, now, st.nextId⟩, rfl, rfl, ?_⟩
      simp only [handleAccountChange, hprev]
      rw [if_pos hbuy]
    · have hnotbuy : ¬ (0 < d.virtual_sol_reserves - prev.virtual_sol_reserves ∧
          0 < prev.virtual_token_reserves - d.virtual_token_reserves) := by
        rintro ⟨h1, _⟩
        omega
      refine ⟨⟨{ type := TradeType.sell,
                   amount := (((d.virtual_sol_reserves - prev.virtual_sol_reserves).natAbs : Nat) : Rat) / 1000000000,
                   bonding_curve := st.bondingCurve, slot := slot,
                   token_amount_delta := some (toString (prev.virtual_token_reserves - d.virtual_token_reserves).natAbs),
                   user := none, signature := none }, now, st.nextId⟩, rfl, rfl, ?_⟩
      simp only [handleAccountChange, hprev]
      rw [if_neg hnotbuy, if_pos hsell]
  rcases htab with ⟨e, hid, hts, htab⟩
  have hkey : ∀ x, (slot, x) ∈ (handleAccountChange st (some d) slot now).pendingTrades →
      x = e := by
    intro x hx
    rw [htab] at hx
    rcases mem_mapSet (mem_sweepPending hx) with hx1 | hx1
    · exact congrArg Prod.snd hx1
    · exact absurd rfl hx1.2
  have hnew : (slot, e) ∈ (handleAccountChange st (some d) slot now).pendingTrades := by
    rw [htab]
    refine List.mem_filter.mpr ⟨mapGet_mem (mapGet_mapSet_self st.pendingTrades slot e), ?_⟩
    rw [hts]
    simp
  refine ⟨⟨e, hnew, hid⟩, ?_, ?_, ?_⟩
  · intro x hx
    have hxe := hkey x hx
    refine ⟨hxe ▸ hid, ?_⟩
    intro hcon
    rw [hcon] at hxe
    rw [hxe] at hltp
    omega
  · intro hcon
    have := hkey pending hcon
    rw [this] at hltp
    omega
  · intro tr
    apply id_never_emitted tr
    · intro p hp
      rcases handleAccountChange_pending_mem hp with hpm | hpm
      · intro hcon
        have hpeq : p = (slot, pending) :=
          List.inj_on_of_nodup_map hinv.1 hpm hmem hcon
        rw [htab] at hp
        rcases mem_mapSet (mem_sweepPending hp) with hp1 | hp1
        · rw [hpeq] at hp1
          have : pending = e := congrArg Prod.snd hp1
          rw [this, hid] at hltp
          omega
        · rw [hpeq] at hp1
          exact hp1.2 rfl
      · intro hcon
        have hle := handleAccountChange_emits_nothing st (some d) slot now
        rw [hpm.2.1] at hcon
        omega
    · rw [(handleAccountChange_emits_nothing st (some d) slot now).2.1]
      exact hinv.2.2.2 (slot, pending) hmem
    · have := (handleAccountChange_emits_nothing st (some d) slot now).2.2
      omega

/-- Witness for C10: the concrete same-slot replacement run; the replaced
record (id 0) is gone and is not emitted by the two later timeout firings. -/
theorem pending_replacement_witness :
    ((7 : Int), ({ event := { type := TradeType.buy, amount := (50 : Rat) / 1000000000,
                              bonding_curve := "bc", slot := 7, token_amount_delta := some "100",
                              user := some "creator", signature := none },
                   timestamp := 1000, id := 0 } : PendingEntry)) ∉
      (handleAccountChange exSt1 (some exD2) 7 1500).pendingTrades ∧
    (0 : Nat) ∉ (runTs (handleAccountChange exSt1 (some exD2) 7 1500)
      [TsStep.fire 7, TsStep.fire 7]).emittedIds := by
  have h := pending_replacement exSt1 7 1500 exD2 ⟨150, 900⟩
    ⟨{ type := TradeType.buy, amount := (50 : Rat) / 1000000000, bonding_curve := "bc",
       slot := 7, token_amount_delta := some "100", user := some "creator",
       signature := none }, 1000, 0⟩
    (by unfold TsInv; decide) rfl rfl (Or.inl (by decide))
  exact ⟨h.2.2.1, h.2.2.2 [TsStep.fire 7, TsStep.fire 7]⟩

theorem filter_idem {α : Type} (p : α → Bool) (l : List α) :
    (l.filter p).filter p = l.filter p := by
  rw [List.filter_filter]
  apply List.filter_congr
  intro a _
  simp

/-- A `TransactionSubscription` that has run `unsubscribe` has both listener
ids null and its snapshot, parser, pending table and subscribed flag cleared. -/
theorem unsubscribe_cleared (st : TsState) (c : Conn) :
    (unsubscribe st c).1.accountListenerId = none ∧
    (unsubscribe st c).1.logsListenerId = none ∧
    (unsubscribe st c).1.prevReserves = none ∧
    (unsubscribe st c).1.hasEventParser = false ∧
    (unsubscribe st c).1.pendingTrades = [] ∧
    (unsubscribe st c).1.subscribed = false := by
  unfold unsubscribe
  cases hA : st.accountListenerId <;> cases hL : st.logsListenerId <;>
    simp [hA, hL]

/-- Running `unsubscribe` on an already-cleared subscription changes nothing
and makes no upstream calls. -/
theorem unsubscribe_of_cleared (st : TsState) (c : Conn)
    (h1 : st.accountListenerId = none) (h2 : st.logsListenerId = none)
    (h3 : st.prevReserves = none) (h4 : st.hasEventParser = false)
    (h5 : st.pendingTrades = []) (h6 : st.subscribed = false) :
    unsubscribe st c = (st, c) := by
  cases st with
  | mk bc aId lId sub err ec pt hep pr pend tim em emi ni =>
    simp only [] at h1 h2 h3 h4 h5 h6
    subst h1; subst h2; subst h3; subst h4; subst h5; subst h6
    rfl

/-- Counterexample to C7: client 1 connects (entry object 0), its cleanup
fires and tears the entry down, client 2 then re-acquires the key (entry
object 1).  A delayed second firing of client 1's cleanup — releasing a
(key, listener) pair that is no longer present — is not a no-op: it deletes
the key's current map binding, orphaning entry 1, whose upstream pair stays
open while the registry no longer maps the key. -/
theorem release_no_op_counterexample :
    (runReg initReg [exConn1, exClose01, exConn2]).transactionSubscriptions = [("k", 1)] ∧
    listenerCount (runReg initReg [exConn1, exClose01, exConn2]) "k" = 1 ∧
    (runReg initReg [exConn1, exClose01, exConn2, exClose01]).transactionSubscriptions = [] ∧
    listenerCount (runReg initReg [exConn1, exClose01, exConn2, exClose01]) "k" = 0 ∧
    accountCount (runReg initReg [exConn1, exClose01, exConn2, exClose01]).conn "k" = 1 ∧
    logsCount (runReg initReg [exConn1, exClose01, exConn2, exClose01]).conn "k" = 1 := by
  refine ⟨rfl, rfl, rfl, rfl, rfl, rfl⟩

/-- C7 as amended: two consecutive firings of the same cleanup are idempotent
— the second changes nothing (in particular it makes no further upstream
calls, the action log being part of the state); releasing a listener that is
not in the captured entry is a no-op while that entry still holds other
listeners, and a release whose captured entry object no longer exists is a
no-op.  (When the captured entry is already empty, however, a stale release
re-runs teardown and deletes the key's current map binding — see the
counterexample.) -/
theorem release_idempotent
    (r : RegState) (key : String) (eid ws : Nat) :
    release (release r key eid ws) key eid ws = release r key eid ws ∧
    (∀ e, mapGet r.entries eid = some e → (r.entries.map Prod.fst).Nodup →
      ws ∉ e.clients → e.clients ≠ [] → release r key eid ws = r) ∧
    (mapGet r.entries eid = none → release r key eid ws = r) := by
  refine ⟨?_, ?_, ?_⟩
  · cases hg : mapGet r.entries eid with
    | none =>
      have h1 : release r key eid ws = r := by
        unfold release
        rw [hg]
      simp only [h1]
    | some e =>
      by_cases hemp : (e.clients.filter (fun w => decide (w ≠ ws))).isEmpty = true
      · have h1 : release r key eid ws =
            { r with
                entries := mapSet r.entries eid
                  { clients := e.clients.filter (fun w => decide (w ≠ ws))
                    subscription := (unsubscribe e.subscription r.conn).1 }
                conn := (unsubscribe e.subscription r.conn).2
                transactionSubscriptions := mapDelete r.transactionSubscriptions key } := by
          unfold release
          rw [hg]
          simp only [hemp, if_true]
        rw [h1]
        have hg2 : mapGet (mapSet r.entries eid
            { clients := e.clients.filter (fun w => decide (w ≠ ws))
              subscription := (unsubscribe e.subscription r.conn).1 }) eid =
            some { clients := e.clients.filter (fun w => decide (w ≠ ws))
                   subscription := (unsubscribe e.subscription r.conn).1 } :=
          mapGet_mapSet_self _ _ _
        unfold release
        rw [hg2]
        have hnil : e.clients.filter (fun w => decide (w ≠ ws)) = [] := by
          simpa using hemp
        have hemp2 : (([] : List Nat).filter (fun w => decide (w ≠ ws))).isEmpty = true := rfl
        simp only [hnil, hemp2, if_true]
        have hcl := unsubscribe_cleared e.subscription r.conn
        have hun := unsubscribe_of_cleared (unsubscribe e.subscription r.conn).1
          (unsubscribe e.subscription r.conn).2 hcl.1 hcl.2.1 hcl.2.2.1 hcl.2.2.2.1
          hcl.2.2.2.2.1 hcl.2.2.2.2.2
        rw [hun]
        simp only [List.filter_nil, mapSet_mapSet_self, mapDelete_idem]
      · have h1 : release r key eid ws =
            { r with
                entries := mapSet r.entries eid
                  { clients := e.clients.filter (fun w => decide (w ≠ ws))
                    subscription := e.subscription } } := by
          unfold release
          rw [hg]
          simp only [hemp]
          rw [if_neg Bool.false_ne_true]
        rw [h1]
        have hg2 := mapGet_mapSet_self r.entries eid
          ({ clients := e.clients.filter (fun w => decide (w ≠ ws))
             subscription := e.subscription } : SubscriptionEntry)
        unfold release
        rw [hg2]
        have hfi : (e.clients.filter (fun w => decide (w ≠ ws))).filter
            (fun w => decide (w ≠ ws)) = e.clients.filter (fun w => decide (w ≠ ws)) :=
          filter_idem _ _
        simp only [hfi, hemp]
        rw [if_neg Bool.false_ne_true, mapSet_mapSet_self]
  · intro e hg hnodup hws hne
    unfold release
    rw [hg]
    have hfe : e.clients.filter (fun w => decide (w ≠ ws)) = e.clients := by
      rw [List.filter_eq_self]
      intro a ha
      simp only [decide_eq_true_eq]
      intro hc
      exact hws (hc ▸ ha)
    have hemp : (e.clients.filter (fun w => decide (w ≠ ws))).isEmpty = false := by
      rw [hfe]
      cases hcl : e.clients with
      | nil => exact absurd hcl hne
      | cons a l => rfl
    simp only [hfe, hemp, if_false]
    have heq : ({ clients := e.clients, subscription := e.subscription } : SubscriptionEntry) = e := rfl
    rw [heq, mapSet_eq_self hnodup hg]
    have hemp2 : ¬ e.clients.isEmpty = true := by
      rw [hfe] at hemp
      simp [hemp]
    rw [if_neg hemp2]
  · intro hg
    unfold release
    rw [hg]

/-- Witness for the amended C7 on concrete registries: a duplicate firing of
client 2's cleanup right after the first changes nothing, and releasing an
absent listener (99) from a live two-client entry changes nothing. -/
theorem release_idempotent_witness :
    release (release (runReg initReg [exConn1, exConn2]) "k" 0 2) "k" 0 2 =
      release (runReg initReg [exConn1, exConn2]) "k" 0 2 ∧
    release (runReg initReg [exConn1, exConn2]) "k" 0 99 =
      runReg initReg [exConn1, exConn2] := by
  have h := release_idempotent (runReg initReg [exConn1, exConn2]) "k" 0 2
  have h99 := release_idempotent (runReg initReg [exConn1, exConn2]) "k" 0 99
  refine ⟨h.1, ?_⟩
  exact h99.2.1 ⟨exStSubK, [1, 2]⟩ rfl (by decide) (by decide) (by decide)

/-- Counterexample to C9: acquiring a fresh key whose account-change open
succeeds but whose logs open fails registers no entry and surfaces the
failure, but the account-change listener handle (0) stays open on the
connection — the partially-opened handle is not cancelled. -/
theorem acquire_partial_failure_counterexample :
    (acquire initReg "k" 1 (some ProgType.pump) (Except.ok none) true false).2 = false ∧
    (acquire initReg "k" 1 (some ProgType.pump) (Except.ok none) true false).1.transactionSubscriptions = [] ∧
    (acquire initReg "k" 1 (some ProgType.pump) (Except.ok none) true false).1.entries = [] ∧
    (acquire initReg "k" 1 (some ProgType.pump) (Except.ok none) true false).1.conn.accountSubs = [(0, "k")] ∧
    (acquire initReg "k" 1 (some ProgType.pump) (Except.ok none) true false).1.conn.logsSubs = [] := by
  refine ⟨rfl, rfl, rfl, rfl, rfl⟩

/-- C9 as amended: when acquiring a fresh key fails — at the owner lookup, the
initial fetch, the account-change open, or the logs open — the failure is
surfaced synchronously, no registry entry is registered, and no logs handle is
ever left open; the connection is untouched when the failure precedes a
successful account-change open, but when the logs open fails after the
account-change open succeeded, that account-change handle remains open (it is
not cancelled). -/
theorem acquire_atomicity
    (r : RegState) (key : String) (ws : Nat) (ensureOwner : Option ProgType)
    (initialFetch : Except Unit (Option BondingCurveDecoded))
    (accountOpenOk logsOpenOk : Bool)
    (hkey : mapGet r.transactionSubscriptions key = none)
    (hfail : ensureOwner = none ∨ initialFetch = Except.error () ∨
      accountOpenOk = false ∨ logsOpenOk = false) :
    (acquire r key ws ensureOwner initialFetch accountOpenOk logsOpenOk).2 = false ∧
    (acquire r key ws ensureOwner initialFetch accountOpenOk logsOpenOk).1.transactionSubscriptions
      = r.transactionSubscriptions ∧
    (acquire r key ws ensureOwner initialFetch accountOpenOk logsOpenOk).1.entries
      = r.entries ∧
    (acquire r key ws ensureOwner initialFetch accountOpenOk logsOpenOk).1.conn.logsSubs
      = r.conn.logsSubs ∧
    ((ensureOwner = none ∨ initialFetch = Except.error () ∨ accountOpenOk = false) →
      (acquire r key ws ensureOwner initialFetch accountOpenOk logsOpenOk).1.conn = r.conn) ∧
    (∀ pt v, ensureOwner = some pt → initialFetch = Except.ok v →
      accountOpenOk = true → logsOpenOk = false →
      (acquire r key ws ensureOwner initialFetch accountOpenOk logsOpenOk).1.conn.accountSubs
        = r.conn.accountSubs ++ [(r.conn.nextHandle, key)]) := by
  cases ensureOwner with
  | none =>
    have hacq : acquire r key ws none initialFetch accountOpenOk logsOpenOk = (r, false) := by
      unfold acquire
      rw [hkey]
      rfl
    rw [hacq]
    refine ⟨rfl, rfl, rfl, rfl, fun _ => rfl, ?_⟩
    intro pt v hpt
    exact absurd hpt (by simp)
  | some pt =>
    cases initialFetch with
    | error e =>
      cases e
      have hacq : acquire r key ws (some pt) (Except.error ()) accountOpenOk logsOpenOk
          = (r, false) := by
        unfold acquire
        rw [hkey]
        rfl
      rw [hacq]
      refine ⟨rfl, rfl, rfl, rfl, fun _ => rfl, ?_⟩
      intro pt2 v _ hv
      exact absurd hv (by simp)
    | ok v =>
      cases accountOpenOk with
      | false =>
        have hacq : acquire r key ws (some pt) (Except.ok v) false logsOpenOk
            = (r, false) := by
          unfold acquire
          rw [hkey]
          cases v <;> rfl
        rw [hacq]
        refine ⟨rfl, rfl, rfl, rfl, fun _ => rfl, ?_⟩
        intro pt2 v2 _ _ hacc
        exact absurd hacc (by simp)
      | true =>
        cases logsOpenOk with
        | true =>
          rcases hfail with h | h | h | h <;> simp at h
        | false =>
          have hacq : acquire r key ws (some pt) (Except.ok v) true false =
              ({ r with conn := { r.conn with
                  nextHandle := r.conn.nextHandle + 1
                  accountSubs := r.conn.accountSubs ++ [(r.conn.nextHandle, key)]
                  actions := r.conn.actions ++ [UpAction.openAccount r.conn.nextHandle key] } },
               false) := by
            unfold acquire
            rw [hkey]
            cases v <;> rfl
          rw [hacq]
          refine ⟨rfl, rfl, rfl, rfl, ?_, ?_⟩
          · intro hc
            rcases hc with h | h | h <;> simp at h
          · intro pt2 v2 _ _ _ _
            rfl

/-- Witness for the amended C9, at the concrete logs-open failure. -/
theorem acquire_atomicity_witness :
    (acquire initReg "k" 1 (some ProgType.pump) (Except.ok none) true false).2 = false ∧
    (acquire initReg "k" 1 (some ProgType.pump) (Except.ok none) true false).1.conn.accountSubs
      = initReg.conn.accountSubs ++ [(initReg.conn.nextHandle, "k")] := by
  have h := acquire_atomicity initReg "k" 1 (some ProgType.pump) (Except.ok none) true false
    rfl (Or.inr (Or.inr (Or.inr rfl)))
  exact ⟨h.1, h.2.2.2.2.2 ProgType.pump none rfl rfl rfl rfl⟩

section RegistryLemmas

variable {κ α : Type} [DecidableEq κ]

theorem mapGet_mapDelete_ne (m : List (κ × α)) (k k' : κ) (h : k' ≠ k) :
    mapGet (mapDelete m k) k' = mapGet m k' := by
  induction m with
  | nil => rfl
  | cons p m ih =>
    by_cases hp : p.1 = k
    · have hstep : mapDelete (p :: m) k = mapDelete m k := by
        simp [mapDelete, List.filter_cons, hp]
      rw [hstep, ih, mapGet_cons]
      have hp' : ¬ p.1 = k' := by rw [hp]; exact fun hc => h hc.symm
      rw [if_neg hp']
    · have hstep : mapDelete (p :: m) k = p :: mapDelete m k := by
        simp [mapDelete, List.filter_cons, hp]
      rw [hstep, mapGet_cons, mapGet_cons, ih]

theorem map_fst_mapSet_present {m : List (κ × α)} {k : κ} {v w : α}
    (h : mapGet m k = some w) :
    (mapSet m k v).map Prod.fst = m.map Prod.fst := by
  unfold mapSet
  rw [if_pos (any_key_of_mapGet_some h)]
  rw [List.map_map]
  apply List.map_congr_left
  intro p _
  by_cases hp : p.1 = k
  · simp [hp]
  · simp [hp]

theorem map_fst_mapSet_absent {m : List (κ × α)} {k : κ} {v : α}
    (h : mapGet m k = none) :
    (mapSet m k v).map Prod.fst = m.map Prod.fst ++ [k] := by
  unfold mapSet
  rw [if_neg, List.map_append]
  · rfl
  · intro hany
    rcases List.any_eq_true.mp hany with ⟨p, hp, hpk⟩
    exact (mapGet_eq_none_iff.mp h p hp) (by simpa using hpk)

theorem nodup_map_fst_filter {m : List (κ × α)} (p : κ × α → Bool)
    (h : (m.map Prod.fst).Nodup) : ((m.filter p).map Prod.fst).Nodup :=
  h.sublist (List.Sublist.map Prod.fst (List.filter_sublist m))

theorem filter_comm2 {α : Type} (p q : α → Bool) (l : List α) :
    (l.filter p).filter q = (l.filter q).filter p := by
  rw [List.filter_filter, List.filter_filter]
  apply List.filter_congr
  intro a _
  rw [Bool.and_comm]

theorem mem_of_filter_eq_singleton {α : Type} {l : List α} {p : α → Bool} {a : α}
    (h : l.filter p = [a]) : a ∈ l := by
  have : a ∈ l.filter p := by rw [h]; simp
  exact (List.mem_filter.mp this).1

/-- Distinct keys have distinct handle ids in a duplicate-free subscription
list. -/
theorem handle_key_uniq {subsL : List (Nat × String)}
    (hnodup : (subsL.map Prod.fst).Nodup) {h1 h2 : Nat} {k1 k2 : String}
    (m1 : (h1, k1) ∈ subsL) (m2 : (h2, k2) ∈ subsL) (hne : k1 ≠ k2) :
    h1 ≠ h2 := by
  intro hc
  subst hc
  have := List.inj_on_of_nodup_map hnodup m1 m2 rfl
  exact hne (congrArg Prod.snd this)

/-- In an invariant-respecting registry, at most one key is bound to a given
entry object. -/
theorem bound_eid_inj {r : RegState} (hinv : RegInv r) {k1 k2 : String} {eid : Nat}
    (hb1 : mapGet r.transactionSubscriptions k1 = some eid)
    (hb2 : mapGet r.transactionSubscriptions k2 = some eid) : k1 = k2 := by
  by_contra hne
  rcases hinv.bound k1 eid hb1 with ⟨e, hge, _, ha, _, hha, _, hfa, _⟩
  rcases hinv.bound k2 eid hb2 with ⟨e2, hge2, _, ha2, _, hha2, _, hfa2, _⟩
  rw [hge] at hge2
  have heq : e = e2 := by injection hge2
  rw [← heq] at hha2
  rw [hha] at hha2
  have hha3 : ha = ha2 := by injection hha2
  exact handle_key_uniq hinv.accNodup (mem_of_filter_eq_singleton hfa)
    (mem_of_filter_eq_singleton hfa2) hne (hha3 ▸ rfl)

end RegistryLemmas

theorem addClient_ne_nil (clients : List Nat) (ws : Nat) : addClient clients ws ≠ [] := by
  unfold addClient
  split
  · rename_i hmem
    intro hc
    rw [hc] at hmem
    simp at hmem
  · simp

theorem not_mem_map_fst_of_mapGet_none {κ α : Type} [DecidableEq κ]
    {m : List (κ × α)} {k : κ} (h : mapGet m k = none) : k ∉ m.map Prod.fst := by
  intro hc
  rcases List.mem_map.mp hc with ⟨p, hp, hpk⟩
  exact mapGet_eq_none_iff.mp h p hp hpk

/-- What a fully successful `subscribe` on a fresh subscription does to the
listener ids and the connection. -/
theorem subscribe_success_shape (key : String) (pt : ProgType)
    (v : Option BondingCurveDecoded) (c : Conn) :
    (subscribe key (some pt) (Except.ok v) true true (initTs key) c).2.2 = true ∧
    (subscribe key (some pt) (Except.ok v) true true (initTs key) c).1.accountListenerId
      = some c.nextHandle ∧
    (subscribe key (some pt) (Except.ok v) true true (initTs key) c).1.logsListenerId
      = some (c.nextHandle + 1) ∧
    (subscribe key (some pt) (Except.ok v) true true (initTs key) c).2.1 =
      { nextHandle := c.nextHandle + 2
        accountSubs := c.accountSubs ++ [(c.nextHandle, key)]
        logsSubs := c.logsSubs ++ [(c.nextHandle + 1, key)]
        actions := (c.actions ++ [UpAction.openAccount c.nextHandle key]) ++
          [UpAction.openLogs (c.nextHandle + 1) key] } := by
  cases v <;> exact ⟨rfl, rfl, rfl, rfl⟩

/-- Shape of a successful acquire on an unbound key. -/
theorem acquire_new_shape (r : RegState) (key : String) (ws : Nat) (pt : ProgType)
    (v : Option BondingCurveDecoded)
    (hkey : mapGet r.transactionSubscriptions key = none) :
    (acquire r key ws (some pt) (Except.ok v) true true).1 =
      { entries := r.entries ++ [(r.nextEid,
          ⟨(subscribe key (some pt) (Except.ok v) true true (initTs key) r.conn).1, [ws]⟩)]
        transactionSubscriptions := mapSet r.transactionSubscriptions key r.nextEid
        conn := (subscribe key (some pt) (Except.ok v) true true (initTs key) r.conn).2.1
        nextEid := r.nextEid + 1 } := by
  unfold acquire
  rw [hkey]
  cases v <;> rfl

/-- Shape of an acquire that joins an existing entry. -/
theorem acquire_join_shape (r : RegState) (key : String) (ws : Nat)
    (ensureOwner : Option ProgType) (initialFetch : Except Unit (Option BondingCurveDecoded))
    (accountOpenOk logsOpenOk : Bool) (eid : Nat) (en : SubscriptionEntry)
    (hkey : mapGet r.transactionSubscriptions key = some eid)
    (hen : mapGet r.entries eid = some en) :
    (acquire r key ws ensureOwner initialFetch accountOpenOk logsOpenOk).1 =
      { r with entries :=
          mapSet r.entries eid { en with clients := addClient en.clients ws } } := by
  unfold acquire
  rw [hkey]
  simp only []
  rw [hen]

/-- What `unsubscribe` does to the connection when both handles are open. -/
theorem unsubscribe_shape (st : TsState) (c : Conn) (ha hl : Nat)
    (h1 : st.accountListenerId = some ha) (h2 : st.logsListenerId = some hl) :
    (unsubscribe st c).2 =
      { nextHandle := c.nextHandle
        accountSubs := c.accountSubs.filter (fun p => decide (p.1 ≠ ha))
        logsSubs := c.logsSubs.filter (fun p => decide (p.1 ≠ hl))
        actions := (c.actions ++ [UpAction.closeAccount ha]) ++ [UpAction.closeLogs hl] } := by
  unfold unsubscribe
  rw [h1]
  simp only []
  rw [h2]

/-- Replacing the clients of an existing entry with any nonempty set preserves
the registry invariant (covers both joining a live entry and a release that
leaves listeners behind). -/
theorem regInv_update_entry {r : RegState} (hinv : RegInv r) (eid : Nat)
    (en : SubscriptionEntry) (clients2 : List Nat)
    (hen : mapGet r.entries eid = some en) (hne : clients2 ≠ []) :
    RegInv { r with entries := mapSet r.entries eid { en with clients := clients2 } } := by
  constructor
  · exact hinv.subsNodup
  · show ((mapSet r.entries eid _).map Prod.fst).Nodup
    rw [map_fst_mapSet_present hen]
    exact hinv.entriesNodup
  · intro p hp
    rcases mem_mapSet hp with hp1 | hp1
    · rw [hp1]
      exact hinv.eidLt (eid, en) (mapGet_mem hen)
    · exact hinv.eidLt p hp1.1
  · intro k2 eid2 hb2
    rcases hinv.bound k2 eid2 hb2 with ⟨e2, hge2, hne2, ha, hl, hha, hhl, hfa, hfl⟩
    by_cases heq : eid2 = eid
    · subst heq
      rw [hen] at hge2
      have he2 : e2 = en := by injection hge2 with h; exact h.symm
      subst he2
      exact ⟨{ e2 with clients := clients2 }, mapGet_mapSet_self _ _ _, hne, ha, hl,
        hha, hhl, hfa, hfl⟩
    · refine ⟨e2, ?_, hne2, ha, hl, hha, hhl, hfa, hfl⟩
      show mapGet (mapSet r.entries eid _) eid2 = some e2
      rw [mapGet_mapSet_ne _ _ _ _ heq]
      exact hge2
  · intro k2 hb2
    exact hinv.unbound k2 hb2
  · exact hinv.accNodup
  · exact hinv.logNodup
  · exact hinv.accLt
  · exact hinv.logLt

theorem nodup_append_single {α : Type} {l : List α} {a : α}
    (h : l.Nodup) (ha : a ∉ l) : (l ++ [a]).Nodup := by
  rw [List.nodup_append]
  refine ⟨h, List.nodup_singleton a, ?_⟩
  intro x hx hxa
  exact ha ((List.mem_singleton.mp hxa) ▸ hx)

/-- Tearing down the last listener's entry preserves the registry invariant:
the key's two handles are removed, the key is unbound, and every other key
keeps exactly its pair of handles. -/
theorem regInv_release_empty {r : RegState} (hinv : RegInv r)
    (key : String) (eid : Nat) (en : SubscriptionEntry)
    (hkey : mapGet r.transactionSubscriptions key = some eid)
    {ha hl : Nat}
    (hha : en.subscription.accountListenerId = some ha)
    (hhl : en.subscription.logsListenerId = some hl)
    (hfa : r.conn.accountSubs.filter (fun p => decide (p.2 = key)) = [(ha, key)])
    (hfl : r.conn.logsSubs.filter (fun p => decide (p.2 = key)) = [(hl, key)])
    (e1 : SubscriptionEntry) (acts : List UpAction) :
    RegInv { entries := mapSet r.entries eid e1
             transactionSubscriptions := mapDelete r.transactionSubscriptions key
             conn := { nextHandle := r.conn.nextHandle
                       accountSubs := r.conn.accountSubs.filter (fun p => decide (p.1 ≠ ha))
                       logsSubs := r.conn.logsSubs.filter (fun p => decide (p.1 ≠ hl))
                       actions := acts }
             nextEid := r.nextEid } := by
  constructor
  · exact nodup_map_fst_filter _ hinv.subsNodup
  · show ((mapSet r.entries eid e1).map Prod.fst).Nodup
    rcases hinv.bound key eid hkey with ⟨en0, hge0, _⟩
    rw [map_fst_mapSet_present hge0]
    exact hinv.entriesNodup
  · intro p hp
    rcases hinv.bound key eid hkey with ⟨en0, hge0, _⟩
    rcases mem_mapSet hp with hp1 | hp1
    · rw [hp1]
      exact hinv.eidLt (eid, en0) (mapGet_mem hge0)
    · exact hinv.eidLt p hp1.1
  · intro k2 eid2 hb2
    have hk2 : k2 ≠ key := by
      intro hc
      rw [hc, mapGet_mapDelete_self] at hb2
      exact absurd hb2 (by simp)
    have hb2' : mapGet r.transactionSubscriptions k2 = some eid2 := by
      rw [← mapGet_mapDelete_ne r.transactionSubscriptions key k2 hk2]
      exact hb2
    rcases hinv.bound k2 eid2 hb2' with ⟨e2, hge2, hne2, ha2, hl2, hha2, hhl2, hfa2, hfl2⟩
    have heid : eid2 ≠ eid := fun hc => hk2 (bound_eid_inj hinv (hc ▸ hb2') hkey)
    have hane : ha2 ≠ ha := handle_key_uniq hinv.accNodup
      (mem_of_filter_eq_singleton hfa2) (mem_of_filter_eq_singleton hfa) hk2
    have hlne : hl2 ≠ hl := handle_key_uniq hinv.logNodup
      (mem_of_filter_eq_singleton hfl2) (mem_of_filter_eq_singleton hfl) hk2
    refine ⟨e2, ?_, hne2, ha2, hl2, hha2, hhl2, ?_, ?_⟩
    · show mapGet (mapSet r.entries eid e1) eid2 = some e2
      rw [mapGet_mapSet_ne _ _ _ _ heid]
      exact hge2
    · show (r.conn.accountSubs.filter (fun p => decide (p.1 ≠ ha))).filter
          (fun p => decide (p.2 = k2)) = [(ha2, k2)]
      rw [filter_comm2, hfa2]
      simp [hane]
    · show (r.conn.logsSubs.filter (fun p => decide (p.1 ≠ hl))).filter
          (fun p => decide (p.2 = k2)) = [(hl2, k2)]
      rw [filter_comm2, hfl2]
      simp [hlne]
  · intro k2 hb2
    by_cases hk2 : k2 = key
    · subst hk2
      constructor
      · show (r.conn.accountSubs.filter (fun p => decide (p.1 ≠ ha))).filter
            (fun p => decide (p.2 = k2)) = []
        rw [filter_comm2, hfa]
        simp
      · show (r.conn.logsSubs.filter (fun p => decide (p.1 ≠ hl))).filter
            (fun p => decide (p.2 = k2)) = []
        rw [filter_comm2, hfl]
        simp
    · have hb2' : mapGet r.transactionSubscriptions k2 = none := by
        rw [← mapGet_mapDelete_ne r.transactionSubscriptions key k2 hk2]
        exact hb2
      rcases hinv.unbound k2 hb2' with ⟨hua, hul⟩
      constructor
      · show (r.conn.accountSubs.filter (fun p => decide (p.1 ≠ ha))).filter
            (fun p => decide (p.2 = k2)) = []
        rw [filter_comm2, hua]
        rfl
      · show (r.conn.logsSubs.filter (fun p => decide (p.1 ≠ hl))).filter
            (fun p => decide (p.2 = k2)) = []
        rw [filter_comm2, hul]
        rfl
  · exact nodup_map_fst_filter _ hinv.accNodup
  · exact nodup_map_fst_filter _ hinv.logNodup
  · intro p hp
    exact hinv.accLt p (List.mem_filter.mp hp).1
  · intro p hp
    exact hinv.logLt p (List.mem_filter.mp hp).1

/-- A fully successful acquire of an unbound key preserves the registry
invariant: it opens exactly one pair of handles for that key and touches no
other key's handles. -/
theorem regInv_acquire_new {r : RegState} (hinv : RegInv r)
    (key : String) (ws : Nat) (pt : ProgType) (v : Option BondingCurveDecoded)
    (hkey : mapGet r.transactionSubscriptions key = none) :
    RegInv (acquire r key ws (some pt) (Except.ok v) true true).1 := by
  rw [acquire_new_shape r key ws pt v hkey]
  have hs := subscribe_success_shape key pt v r.conn
  rw [hs.2.2.2]
  constructor
  · show ((mapSet r.transactionSubscriptions key r.nextEid).map Prod.fst).Nodup
    rw [map_fst_mapSet_absent hkey]
    exact nodup_append_single hinv.subsNodup (not_mem_map_fst_of_mapGet_none hkey)
  · show ((r.entries ++ [(r.nextEid, _)]).map Prod.fst).Nodup
    rw [List.map_append]
    refine nodup_append_single hinv.entriesNodup ?_
    intro hc
    rcases List.mem_map.mp hc with ⟨p, hp, hpk⟩
    exact absurd (hpk ▸ hinv.eidLt p hp) (lt_irrefl _)
  · intro p hp
    show p.1 < r.nextEid + 1
    rcases List.mem_append.mp hp with hp1 | hp1
    · have := hinv.eidLt p hp1
      omega
    · rw [List.mem_singleton.mp hp1]
      simp
  · intro k2 eid2 hb2
    by_cases hk2 : k2 = key
    · subst hk2
      rw [mapGet_mapSet_self] at hb2
      have heid2 : eid2 = r.nextEid := by injection hb2 with h; exact h.symm
      subst heid2
      refine ⟨⟨(subscribe k2 (some pt) (Except.ok v) true true (initTs k2) r.conn).1, [ws]⟩,
        ?_, by simp, r.conn.nextHandle, r.conn.nextHandle + 1, hs.2.1, hs.2.2.1, ?_, ?_⟩
      · apply mapGet_append_single_self
        intro p hp hpc
        exact absurd (hpc ▸ hinv.eidLt p hp) (lt_irrefl _)
      · show ((r.conn.accountSubs ++ [(r.conn.nextHandle, k2)]).filter
            (fun p => decide (p.2 = k2))) = [(r.conn.nextHandle, k2)]
        rw [List.filter_append, (hinv.unbound k2 hkey).1]
        simp
      · show ((r.conn.logsSubs ++ [(r.conn.nextHandle + 1, k2)]).filter
            (fun p => decide (p.2 = k2))) = [(r.conn.nextHandle + 1, k2)]
        rw [List.filter_append, (hinv.unbound k2 hkey).2]
        simp
    · have hb2' : mapGet r.transactionSubscriptions k2 = some eid2 := by
        rw [← mapGet_mapSet_ne r.transactionSubscriptions key k2 r.nextEid hk2]
        exact hb2
      rcases hinv.bound k2 eid2 hb2' with ⟨e2, hge2, hne2, ha2, hl2, hha2, hhl2, hfa2, hfl2⟩
      have hkne : key ≠ k2 := fun hc => hk2 hc.symm
      refine ⟨e2, ?_, hne2, ha2, hl2, hha2, hhl2, ?_, ?_⟩
      · apply Eq.trans (mapGet_append_single_ne r.entries r.nextEid eid2 _ ?_) hge2
        intro hc
        exact absurd (hc ▸ hinv.eidLt (eid2, e2) (mapGet_mem hge2)) (lt_irrefl _)
      · rw [List.filter_append, hfa2]
        simp [hkne]
      · rw [List.filter_append, hfl2]
        simp [hkne]
  · intro k2 hb2
    have hk2 : k2 ≠ key := by
      intro hc
      rw [hc, mapGet_mapSet_self] at hb2
      exact absurd hb2 (by simp)
    have hb2' : mapGet r.transactionSubscriptions k2 = none := by
      rw [← mapGet_mapSet_ne r.transactionSubscriptions key k2 r.nextEid hk2]
      exact hb2
    rcases hinv.unbound k2 hb2' with ⟨hua, hul⟩
    have hkne : key ≠ k2 := fun hc => hk2 hc.symm
    constructor
    · rw [List.filter_append, hua]
      simp [hkne]
    · rw [List.filter_append, hul]
      simp [hkne]
  · show ((r.conn.accountSubs ++ [(r.conn.nextHandle, key)]).map Prod.fst).Nodup
    rw [List.map_append]
    refine nodup_append_single hinv.accNodup ?_
    intro hc
    rcases List.mem_map.mp hc with ⟨p, hp, hpk⟩
    exact absurd (hpk ▸ hinv.accLt p hp) (lt_irrefl _)
  · show ((r.conn.logsSubs ++ [(r.conn.nextHandle + 1, key)]).map Prod.fst).Nodup
    rw [List.map_append]
    refine nodup_append_single hinv.logNodup ?_
    intro hc
    rcases List.mem_map.mp hc with ⟨p, hp, hpk⟩
    have := hinv.logLt p hp
    omega
  · intro p hp
    show p.1 < r.conn.nextHandle + 2
    rcases List.mem_append.mp hp with hp1 | hp1
    · have := hinv.accLt p hp1
      omega
    · rw [List.mem_singleton.mp hp1]
      simp
  · intro p hp
    show p.1 < r.conn.nextHandle + 2
    rcases List.mem_append.mp hp with hp1 | hp1
    · have := hinv.logLt p hp1
      omega
    · rw [List.mem_singleton.mp hp1]
      simp

/-- The registry invariant holds at server start. -/
theorem regInv_initReg : RegInv initReg := by
  constructor
  · exact List.nodup_nil
  · exact List.nodup_nil
  · intro p hp
    exact absurd hp (List.not_mem_nil p)
  · intro key eid h
    exact Option.noConfusion h
  · intro key _
    exact ⟨rfl, rfl⟩
  · exact List.nodup_nil
  · exact List.nodup_nil
  · intro p hp
    exact absurd hp (List.not_mem_nil p)
  · intro p hp
    exact absurd hp (List.not_mem_nil p)

/-- Every well-formed registry operation preserves the registry invariant. -/
theorem regInv_regStep {r : RegState} (hinv : RegInv r) (s : RegStep)
    (hwf : wfStep r s = true) : RegInv (regStep r s) := by
  cases s with
  | connect key ws ensureOwner initialFetch accountOpenOk logsOpenOk =>
    show RegInv (acquire r key ws ensureOwner initialFetch accountOpenOk logsOpenOk).1
    cases hkey : mapGet r.transactionSubscriptions key with
    | some eid =>
      cases hen : mapGet r.entries eid with
      | some en =>
        rw [acquire_join_shape r key ws ensureOwner initialFetch accountOpenOk logsOpenOk
          eid en hkey hen]
        exact regInv_update_entry hinv eid en _ hen (addClient_ne_nil en.clients ws)
      | none =>
        have hacq : (acquire r key ws ensureOwner initialFetch accountOpenOk logsOpenOk).1
            = r := by
          unfold acquire
          rw [hkey]
          simp only []
          rw [hen]
        rw [hacq]
        exact hinv
    | none =>
      cases ensureOwner with
      | none =>
        have hacq : (acquire r key ws none initialFetch accountOpenOk logsOpenOk).1 = r := by
          unfold acquire
          rw [hkey]
          rfl
        rw [hacq]
        exact hinv
      | some pt =>
        cases initialFetch with
        | error e =>
          cases e
          have hacq : (acquire r key ws (some pt) (Except.error ()) accountOpenOk
              logsOpenOk).1 = r := by
            unfold acquire
            rw [hkey]
            rfl
          rw [hacq]
          exact hinv
        | ok v =>
          cases accountOpenOk with
          | false =>
            have hacq : (acquire r key ws (some pt) (Except.ok v) false logsOpenOk).1
                = r := by
              unfold acquire
              rw [hkey]
              cases v <;> rfl
            rw [hacq]
            exact hinv
          | true =>
            cases logsOpenOk with
            | false => simp [wfStep] at hwf
            | true => exact regInv_acquire_new hinv key ws pt v hkey
  | close key eid ws =>
    show RegInv (release r key eid ws)
    simp only [wfStep] at hwf
    cases hkey : mapGet r.transactionSubscriptions key with
    | none =>
      rw [hkey] at hwf
      exact absurd hwf (by simp)
    | some eid0 =>
      rw [hkey] at hwf
      simp only [] at hwf
      rw [Bool.and_eq_true] at hwf
      rcases hwf with ⟨heq, hmem⟩
      have heid : eid0 = eid := of_decide_eq_true heq
      subst heid
      cases hen : mapGet r.entries eid0 with
      | none =>
        rw [hen] at hmem
        exact absurd hmem (by simp)
      | some en =>
        rw [hen] at hmem
        simp only [] at hmem
        rcases hinv.bound key eid0 hkey with ⟨en2, hen2, _, ha, hl, hha, hhl, hfa, hfl⟩
        rw [hen] at hen2
        have hee : en2 = en := by injection hen2 with h; exact h.symm
        subst hee
        unfold release
        rw [hen]
        simp only []
        by_cases hemp : (en2.clients.filter (fun w => decide (w ≠ ws))).isEmpty = true
        · rw [if_pos hemp]
          rw [unsubscribe_shape en2.subscription r.conn ha hl hha hhl]
          exact regInv_release_empty hinv key eid0 en2 hkey hha hhl hfa hfl _ _
        · rw [if_neg hemp]
          refine regInv_update_entry hinv eid0 en2 _ hen ?_
          intro hc
          rw [hc] at hemp
          exact hemp rfl

/-- A well-formed trace of registry operations preserves the invariant. -/
theorem regInv_runReg (tr : List RegStep) :
    ∀ r : RegState, RegInv r → wfTrace r tr = true → RegInv (runReg r tr) := by
  induction tr with
  | nil => exact fun _ h _ => h
  | cons s rest ih =>
    intro r h htr
    have h2 : wfStep r s = true ∧ wfTrace (regStep r s) rest = true := by
      simpa [wfTrace, Bool.and_eq_true] using htr
    exact ih (regStep r s) (regInv_regStep h s h2.1) h2.2

/-- Counterexample to C8 as stated over arbitrary acquire/release sequences.
With a stale duplicate cleanup (a socket's `error` handler and later its
`close` handler both firing on the same captured entry, around a re-acquire
of the key) the key ends with one listener but two open account-change and
two open logs handles.  With a half-failed subscribe (logs open failing after
the account-change open succeeded) one listener coexists with two
account-change handles and one logs handle. -/
theorem registry_refcount_counterexample :
    listenerCount (runReg initReg exTraceStale) "k" = 1 ∧
    accountCount (runReg initReg exTraceStale).conn "k" = 2 ∧
    logsCount (runReg initReg exTraceStale).conn "k" = 2 ∧
    listenerCount (runReg initReg [exConnFail, exConn1]) "k" = 1 ∧
    accountCount (runReg initReg [exConnFail, exConn1]).conn "k" = 2 ∧
    logsCount (runReg initReg [exConnFail, exConn1]).conn "k" = 1 :=
  ⟨rfl, rfl, rfl, rfl, rfl, rfl⟩

/-- C8 (amended): over every trace of acquire/release operations in which
each cleanup fires for the entry currently bound to its key with the client
still in its set (no stale duplicate releases) and no subscribe leaves a
half-open pair behind, every key has exactly one open account-change handle
and exactly one open logs handle while its listener count is positive, and
zero of each while its listener count is zero; in the two-listener scenario
the single unsubscribe pair is issued only after the second release, not
after the first. -/
theorem registry_refcount (tr : List RegStep) (htr : wfTrace initReg tr = true) :
    (∀ key, (0 < listenerCount (runReg initReg tr) key →
        accountCount (runReg initReg tr).conn key = 1 ∧
        logsCount (runReg initReg tr).conn key = 1) ∧
      (listenerCount (runReg initReg tr) key = 0 →
        accountCount (runReg initReg tr).conn key = 0 ∧
        logsCount (runReg initReg tr).conn key = 0)) ∧
    (runReg initReg [exConn1, exConn2, exClose01]).conn.actions =
      [UpAction.openAccount 0 "k", UpAction.openLogs 1 "k"] ∧
    (runReg initReg exTraceS3).conn.actions =
      [UpAction.openAccount 0 "k", UpAction.openLogs 1 "k",
       UpAction.closeAccount 0, UpAction.closeLogs 1] := by
  have hinv : RegInv (runReg initReg tr) := regInv_runReg tr initReg regInv_initReg htr
  refine ⟨?_, rfl, rfl⟩
  intro key
  constructor
  · intro hpos
    cases hkey : mapGet (runReg initReg tr).transactionSubscriptions key with
    | none =>
      exfalso
      unfold listenerCount at hpos
      rw [hkey] at hpos
      exact absurd hpos (by simp)
    | some eid =>
      rcases hinv.bound key eid hkey with ⟨e, _, _, ha, hl, _, _, hfa, hfl⟩
      constructor
      · unfold accountCount
        rw [hfa]
        rfl
      · unfold logsCount
        rw [hfl]
        rfl
  · intro hz
    cases hkey : mapGet (runReg initReg tr).transactionSubscriptions key with
    | none =>
      rcases hinv.unbound key hkey with ⟨hua, hul⟩
      constructor
      · unfold accountCount
        rw [hua]
        rfl
      · unfold logsCount
        rw [hul]
        rfl
    | some eid =>
      rcases hinv.bound key eid hkey with ⟨e, hge, hne, _⟩
      exfalso
      unfold listenerCount at hz
      rw [hkey] at hz
      simp only [] at hz
      rw [hge] at hz
      simp only [] at hz
      exact hne (List.length_eq_zero.mp hz)

/-- Witness for the amended C8: the two-listener trace after its first
release is well formed, still has listeners, and holds exactly one open pair. -/
theorem registry_refcount_witness :
    wfTrace initReg [exConn1, exConn2, exClose01] = true ∧
    accountCount (runReg initReg [exConn1, exConn2, exClose01]).conn "k" = 1 ∧
    logsCount (runReg initReg [exConn1, exConn2, exClose01]).conn "k" = 1 := by
  have h := registry_refcount [exConn1, exConn2, exClose01] (by decide)
  exact ⟨by decide, (h.1 "k").1 (by decide)⟩

end PumpApi
